import Mathlib

/-!
Shallow embedding of the match-3 logic engine in `src/game/BackendPuzzle.js`
(repository may-phaser).

Conventions used throughout:
* a grid cell `{gemType: t}` is modelled as `some t`, a `null` cell as `none`;
* the grid `puzzleState` is a list of columns, each column a list of cells,
  indexed `[col][row]` exactly as in the source (`puzzleState[x][y]`, row 0 on top);
* `Math.floor(Math.random() * list.length)` (an arbitrary in-range index) is
  modelled by an oracle natural number reduced modulo `list.length`;
* JavaScript `a % b` on numbers is truncated remainder, modelled by `Int.tmod`.
-/

namespace MayPhaser

/-- A cell of the puzzle grid: `some t` models the JS object `{gemType: t}`,
`none` models a `null` cell. -/
abbrev Cell := Option String

/-- The grid, a list of columns indexed `[col][row]` as in the source. -/
abbrev Grid := List (List Cell)

/-- Modelled from the spec: the constant `GEM_TYPES` is imported from
`src/game/constants.js`, which is not part of the repository sources.  The spec
describes the token types as an enumerated symbol from a fixed finite set of
size at least 3, and the habitat map in `BackendPuzzle.js` maps habitat codes
onto exactly these six color names. -/
def GEM_TYPES : List String := ["black", "blue", "green", "orange", "red", "white"]

/-- The habitat-code to gem-type table `HABITAT_GEM_MAP` of `BackendPuzzle.js`
(lines 10-44), as an association list. -/
def HABITAT_GEM_MAP : List (Int × String) :=
  [(100, "green"), (101, "green"), (102, "green"), (103, "green"), (104, "green"),
   (105, "green"), (106, "green"), (107, "green"), (108, "green"), (109, "green"),
   (200, "orange"), (201, "orange"), (202, "orange"),
   (300, "black"), (301, "black"), (302, "black"), (303, "black"), (304, "black"),
   (305, "black"), (306, "black"), (307, "black"), (308, "black"),
   (400, "blue"), (401, "blue"), (402, "blue"), (403, "blue"), (404, "blue"),
   (405, "blue"), (406, "blue"), (407, "blue"),
   (500, "blue"), (501, "blue"), (502, "blue"), (503, "blue"), (504, "blue"),
   (505, "blue"), (506, "blue"), (507, "blue"), (508, "blue"), (509, "blue"),
   (510, "blue"), (511, "blue"), (512, "blue"), (513, "blue"), (514, "blue"),
   (515, "blue"), (516, "blue"), (517, "blue"), (518, "blue"),
   (900, "white"), (901, "white"),
   (1000, "blue"), (1001, "blue"), (1002, "blue"), (1003, "blue"), (1004, "blue"),
   (1100, "blue"), (1101, "blue"), (1102, "blue"), (1103, "blue"), (1104, "blue"),
   (1105, "blue"), (1106, "blue"),
   (1200, "blue"), (1206, "blue"), (1207, "blue"),
   (1400, "red"), (1401, "red"), (1402, "red"), (1403, "red"), (1404, "red"),
   (1405, "red"), (1406, "red"),
   (0, "blue"), (1700, "white")]

/-- `puzzleState[x]?.[y]?.gemType` (`getGemType` inside `getMatches`,
`BackendPuzzle.js` line 347): `none` when the column or row index is out of
range or the cell is `null`. -/
def getGemType (grid : Grid) (x y : Nat) : Option String :=
  ((grid.get? x).bind (fun col => col.get? y)).bind id

/-- One iteration body of the generation loops in
`getInitialPuzzleStateWithNoMatches` (`BackendPuzzle.js` lines 118-142).
`cols` are the columns already built (`grid[0..x-1]`), `acc` the cells already
placed in the current column `x` (so the cell being chosen sits at row
`y = acc.length`), and `idx` models `Math.floor(Math.random() * possibleTypes.length)`
via reduction modulo the candidate count.  Cells already placed always hold a
gem-type symbol, so the JS truthiness guards `prevY1Type &&` and `prevX1Type &&`
are modelled as definedness of the read. -/
def chooseGem (gemTypes : List String) (cols : Grid) (acc : List Cell)
    (x idx : Nat) : String :=
  let y := acc.length
  let prevY1 : Option String := (acc.get? (y - 1)).bind id
  let prevY2 : Option String := (acc.get? (y - 2)).bind id
  let afterV := if 2 ≤ y ∧ prevY1.isSome ∧ prevY1 = prevY2
    then gemTypes.filter (fun t => prevY1 ≠ some t) else gemTypes
  let prevX1 : Option String := ((cols.get? (x - 1)).bind (fun c => c.get? y)).bind id
  let prevX2 : Option String := ((cols.get? (x - 2)).bind (fun c => c.get? y)).bind id
  let afterH := if 2 ≤ x ∧ prevX1.isSome ∧ prevX1 = prevX2
    then afterV.filter (fun t => prevX1 ≠ some t) else afterV
  let possibleTypes := if afterH.isEmpty then gemTypes else afterH
  possibleTypes.getD (idx % possibleTypes.length) ""

/-- The inner `for (let y ...)` loop of `getInitialPuzzleStateWithNoMatches`:
starting from the cells `acc` already placed in column `x`, place `n` more
cells.  The oracle supplies the random index for each `(x, y)`. -/
def buildColumnGo (gemTypes : List String) (oracle : Nat → Nat → Nat)
    (cols : Grid) (x : Nat) : Nat → List Cell → List Cell
  | 0, acc => acc
  | n + 1, acc =>
      buildColumnGo gemTypes oracle cols x n
        (acc ++ [some (chooseGem gemTypes cols acc x (oracle x acc.length))])

/-- Builds column `x` of the initial grid, given the columns already built. -/
def buildColumn (gemTypes : List String) (oracle : Nat → Nat → Nat)
    (cols : Grid) (x height : Nat) : List Cell :=
  buildColumnGo gemTypes oracle cols x height []

/-- The outer `for (let x ...)` loop of `getInitialPuzzleStateWithNoMatches`:
append `n` more columns to the columns already built. -/
def buildGridGo (gemTypes : List String) (oracle : Nat → Nat → Nat)
    (height : Nat) : Nat → Grid → Grid
  | 0, cols => cols
  | n + 1, cols =>
      buildGridGo gemTypes oracle height n
        (cols ++ [buildColumn gemTypes oracle cols cols.length height])

/-- `getInitialPuzzleStateWithNoMatches` (`BackendPuzzle.js` lines 112-147):
fills the grid column by column, top to bottom, choosing each gem from the
types that do not complete a vertical or horizontal run of three with the two
cells above or the two cells to the left. -/
def getInitialPuzzleStateWithNoMatches (gemTypes : List String)
    (oracle : Nat → Nat → Nat) (width height : Nat) : Grid :=
  buildGridGo gemTypes oracle height width []

/-- The `while (y + matchLength < limit && getGemType(..) === currentType)`
extension loop inside `getMatches`: counts how many consecutive cells from
`start` on still hold `t`.  `fuel` bounds the remaining positions
(`limit - start`), so running out of fuel is exactly the `< limit` bound. -/
def extendRun (cells : Nat → Option String) (t : String) : Nat → Nat → Nat
  | _, 0 => 0
  | start, fuel + 1 =>
      if cells start = some t then extendRun cells t (start + 1) fuel + 1 else 0

/-- One axis scan of `getMatches` (`BackendPuzzle.js` lines 350-372 and
375-397): starting at position `pos` with the loop guard `pos < limit - 2`,
record `(start, runLength)` for each run of length at least 3 and jump the
scan pointer past the whole run (`y += matchLength`).  `fuel` only bounds the
number of loop iterations; `limit` iterations always suffice because the
pointer advances by at least one each time. -/
def scanLine (cells : Nat → Option String) (limit : Nat) : Nat → Nat → List (Nat × Nat)
  | _, 0 => []
  | pos, fuel + 1 =>
      if pos < limit - 2 then
        match cells pos with
        | none => scanLine cells limit (pos + 1) fuel
        | some t =>
            let ml := extendRun cells t (pos + 1) (limit - (pos + 1)) + 1
            let rest := scanLine cells limit (pos + ml) fuel
            if 3 ≤ ml then (pos, ml) :: rest else rest
      else []

/-- `getMatches` (`BackendPuzzle.js` lines 343-400): vertical scan of every
column, then horizontal scan of every row; each recorded run becomes the list
of its coordinates (`[x, y]` pairs). -/
def getMatches (width height : Nat) (grid : Grid) : List (List (Nat × Nat)) :=
  if width = 0 ∨ height = 0 then [] else
  let vertical := (List.range width).flatMap (fun x =>
    (scanLine (fun y => getGemType grid x y) height 0 height).map
      (fun p => (List.range p.2).map (fun i => (x, p.1 + i))))
  let horizontal := (List.range height).flatMap (fun y =>
    (scanLine (fun x => getGemType grid x y) width 0 width).map
      (fun p => (List.range p.2).map (fun i => (p.1 + i, y))))
  vertical ++ horizontal

/-- The two move axes of a `MoveAction` (`rowOrCol` field). -/
inductive RowOrCol
  | row
  | col
deriving DecidableEq, Repr

/-- A `MoveAction` as consumed by `applyMoveToGrid`: `index` and `amount` are
arbitrary JS numbers, modelled as integers. -/
structure MoveAction where
  rowOrCol : RowOrCol
  index : Int
  amount : Int

/-- `((amount % len) + len) % len` of `applyMoveToGrid`, with the truncated
remainder of JS numbers. -/
def effAmount (amount : Int) (len : Nat) : Int :=
  ((amount.tmod len) + len).tmod len

/-- The write-back loop of the row branch of `applyMoveToGrid` (lines 309-313):
`grid[x][y] = newRow[x]` for every existing column `x < width`. -/
def writeRow (y width : Nat) (newRow : List Cell) : Nat → Grid → Grid
  | _, [] => []
  | x, col :: rest =>
      (if x < width then col.set y (newRow.getD x none) else col)
        :: writeRow y width newRow (x + 1) rest

/-- `applyMoveToGrid` (`BackendPuzzle.js` lines 283-336): rotates one row or
column with wraparound, in several silently-returning guard stages.  The read
`grid[x]?.[y]` is `none` exactly when JS would see `undefined` (missing column
or row index past the column length); a `null` cell reads as `some none`. -/
def applyMoveToGrid (width height : Nat) (grid : Grid) (m : MoveAction) : Grid :=
  if m.amount = 0 then grid
  else
    match m.rowOrCol with
    | RowOrCol.row =>
      let eff := effAmount m.amount width
      if eff = 0 then grid
      else if m.index < 0 ∨ (height : Int) ≤ m.index then grid
      else
        let y := m.index.toNat
        let reads := (List.range width).map
          (fun x => (grid.get? x).bind (fun col => col.get? y))
        if reads.any (fun r => r.isNone) then grid
        else
          let currentRow : List Cell := reads.map (fun r => r.getD none)
          let k := width - eff.toNat
          let newRow := currentRow.drop k ++ currentRow.take k
          writeRow y width newRow 0 grid
    | RowOrCol.col =>
      let eff := effAmount m.amount height
      if eff = 0 then grid
      else if m.index < 0 ∨ (width : Int) ≤ m.index
          ∨ (grid.get? m.index.toNat).isNone then grid
      else
        let x := m.index.toNat
        let currentCol := grid.getD x []
        let k := height - eff.toNat
        let newCol := currentCol.drop k ++ currentCol.take k
        grid.set x newCol

/-- The row `y` of a grid, read across the columns as `applyMoveToGrid` reads
it (`grid[x][y]`, missing cells as `null`). -/
def rowOf (grid : Grid) (y : Nat) : List Cell :=
  grid.map (fun col => (col.get? y).getD none)

/-- Cyclic rotation moving every entry `n` places toward higher indices with
wraparound (the spec direction for positive row shifts; rightward for rows,
downward for columns). -/
def rotateRight {α : Type} (l : List α) (n : Nat) : List α :=
  l.rotate (l.length - n % l.length)

/-- Modelled from the spec: the class `ExplodeAndReplacePhase` is imported from
`src/game/ExplodeAndReplacePhase.js`, a file not present in the repository
sources.  Per the spec it is an immutable value holding the matches found and
the replacement tokens per column (`replacements[col]` in spawn order,
top-most new cell first). -/
structure ExplodeAndReplacePhase where
  «matches» : List (List (Nat × Nat))
  replacements : List (Nat × List String)

/-- Modelled from the spec: "isNothingToDo() holds iff matches is empty". -/
def ExplodeAndReplacePhase.isNothingToDo (p : ExplodeAndReplacePhase) : Bool :=
  p.matches.isEmpty

/-- The mutable fields of a `BackendPuzzle` instance. -/
structure BackendPuzzle where
  width : Nat
  height : Nat
  nextGemsToSpawn : List String
  puzzleState : Grid
  habitatInfluence : Option (List Int)

/-- The `BackendPuzzle` constructor (`BackendPuzzle.js` lines 63-72): stores
the dimensions and generates the initial match-free grid.  No validation of
`width` or `height` is performed. -/
def mkBackendPuzzle (oracle : Nat → Nat → Nat) (width height : Nat) : BackendPuzzle :=
  { width := width
    height := height
    nextGemsToSpawn := []
    puzzleState := getInitialPuzzleStateWithNoMatches GEM_TYPES oracle width height
    habitatInfluence := none }

/-- `setHabitatInfluence` (`BackendPuzzle.js` lines 75-92).  The argument
models the JS value: `none` for a non-array, `some vs` for an array whose
entries are `some n` (a finite number) or `none` (anything filtered out by
`typeof h === number && !isNaN(h)`). -/
def setHabitatInfluence (st : BackendPuzzle)
    (habitatValues : Option (List (Option Int))) : BackendPuzzle :=
  match habitatValues with
  | some vs =>
      let validHabitats := vs.filterMap id
      if 0 < validHabitats.length then { st with habitatInfluence := some validHabitats }
      else { st with habitatInfluence := none }
  | none => { st with habitatInfluence := none }

/-- `getNextGemToSpawnType` (`BackendPuzzle.js` lines 228-254).  `r.1` models
the random index into `habitatInfluence`, `r.2` the random index into
`GEM_TYPES`, both via reduction modulo the list length.  The JS truthiness
guard `mappedGemType &&` is the inequality with the empty string. -/
def getNextGemToSpawnType (st : BackendPuzzle) (r : Nat × Nat) :
    String × BackendPuzzle :=
  match st.nextGemsToSpawn with
  | g :: rest => (g, { st with nextGemsToSpawn := rest })
  | [] =>
      let randomDefault := GEM_TYPES.getD (r.2 % GEM_TYPES.length) ""
      match st.habitatInfluence with
      | some hs =>
          if 0 < hs.length then
            let habitatValue := hs.getD (r.1 % hs.length) 0
            match HABITAT_GEM_MAP.lookup habitatValue with
            | some mapped =>
                if mapped ≠ "" ∧ mapped ∈ GEM_TYPES then (mapped, st)
                else (randomDefault, st)
            | none => (randomDefault, st)
          else (randomDefault, st)
      | none => (randomDefault, st)

/-- `addNextGemsToSpawn` (`BackendPuzzle.js` lines 263-265). -/
def addNextGemsToSpawn (st : BackendPuzzle) (gemTypes : List String) : BackendPuzzle :=
  { st with nextGemsToSpawn := st.nextGemsToSpawn ++ gemTypes }

/-- `applyExplodeAndReplacePhase` (`BackendPuzzle.js` lines 406-439): per
column, drop the exploded cells, put the replacement gems on top, and fix up
the length if it does not come out as `height` (pad with `null` or truncate).
The JS `Set` of `"x,y"` strings is the deduplicated list of coordinate pairs,
and `new Map(phase.replacements)` is association-list lookup (the generated
replacement lists have distinct column keys). -/
def applyExplodeAndReplacePhase (st : BackendPuzzle)
    (phase : ExplodeAndReplacePhase) : BackendPuzzle :=
  if phase.isNothingToDo then st else
  let explodeCoords := phase.matches.flatten.dedup
  let newGrid := (List.range st.width).map (fun x =>
    let currentColumn := (st.puzzleState.get? x).getD []
    let survivingGems := (currentColumn.enum.filter
        (fun p => decide ((x, p.1) ∉ explodeCoords))).map Prod.snd
    let newGemTypes := (phase.replacements.lookup x).getD []
    let newGems : List Cell := newGemTypes.map some
    let col0 := newGems ++ survivingGems
    if col0.length = st.height then col0
    else if col0.length < st.height then
      col0 ++ List.replicate (st.height - col0.length) (none : Cell)
    else col0.take st.height)
  { st with puzzleState := newGrid }

/-- The `typesForCol` inner loop of `getNextExplodeAndReplacePhase` (lines
186-189): draw `n` spawn types in sequence, threading the engine state (the
manual queue is consumed) and the call counter `k` into the random supply. -/
def genSpawnTypes (rng : Nat → Nat × Nat) :
    Nat → Nat → BackendPuzzle → List String × BackendPuzzle
  | _, 0, st => ([], st)
  | k, n + 1, st =>
      let first := getNextGemToSpawnType st (rng k)
      let rest := genSpawnTypes rng (k + 1) n first.2
      (first.1 :: rest.1, rest.2)

/-- The replacement-generation loop of `getNextExplodeAndReplacePhase` (lines
183-192): for each column index in order, if any cell of that column exploded,
draw that many spawn types and record `[x, typesForCol]`. -/
def genReplacements (rng : Nat → Nat × Nat) (counts : Nat → Nat) :
    List Nat → Nat → BackendPuzzle → List (Nat × List String) × BackendPuzzle
  | [], _, st => ([], st)
  | x :: xs, k, st =>
      if 0 < counts x then
        let drawn := genSpawnTypes rng k (counts x) st
        let rest := genReplacements rng counts xs (k + counts x) drawn.2
        ((x, drawn.1) :: rest.1, rest.2)
      else genReplacements rng counts xs k st

/-- `getNextExplodeAndReplacePhase` (`BackendPuzzle.js` lines 155-205): apply
the moves to the stored grid, find matches, generate one replacement per
distinct exploded cell per column, and commit explosion and replacement when
there is something to do.  `rng k` supplies the random draws for the k-th
`getNextGemToSpawnType` call of this phase. -/
def getNextExplodeAndReplacePhase (st : BackendPuzzle) (actions : List MoveAction)
    (rng : Nat → Nat × Nat) : ExplodeAndReplacePhase × BackendPuzzle :=
  let grid1 := actions.foldl (fun g a => applyMoveToGrid st.width st.height g a)
    st.puzzleState
  let st1 := { st with puzzleState := grid1 }
  let ms := getMatches st.width st.height grid1
  let explodedCoords := ms.flatten.dedup
  let counts := fun x => explodedCoords.countP (fun c => c.1 == x)
  let gen := if 0 < ms.length then
      genReplacements rng counts (List.range st.width) 0 st1
    else ([], st1)
  let phase : ExplodeAndReplacePhase := ⟨ms, gen.1⟩
  let st3 := if phase.isNothingToDo then gen.2
    else applyExplodeAndReplacePhase gen.2 phase
  (phase, st3)

/-- Concrete 3-wide, 5-tall grid whose only run of three is the red run at the
top of column 0 (the example of spec section 8, match detection correctness). -/
def exampleGrid9 : Grid :=
  [[some "red", some "red", some "red", some "blue", some "green"],
   [some "blue", some "green", some "orange", some "white", some "black"],
   [some "green", some "blue", some "white", some "orange", some "red"]]

/-- Concrete 3-by-3 grid entirely filled with red gems (it is full of matches,
so it can certainly not be a freshly generated match-free grid). -/
def allRedGrid : Grid :=
  [[some "red", some "red", some "red"],
   [some "red", some "red", some "red"],
   [some "red", some "red", some "red"]]

/-- Concrete engine state holding `allRedGrid`. -/
def allRedState : BackendPuzzle :=
  { width := 3, height := 3, nextGemsToSpawn := [],
    puzzleState := allRedGrid, habitatInfluence := none }

/-- Concrete engine state for the replacement-safety scenario: the top row is
one horizontal blue match, the surviving cells of column 0 start with two reds,
and the manual queue makes the spawn routine put another red on top of them. -/
def spawnRunState : BackendPuzzle :=
  { width := 3, height := 4,
    nextGemsToSpawn := ["red", "white", "green"],
    puzzleState :=
      [[some "blue", some "red", some "red", some "green"],
       [some "blue", some "green", some "red", some "orange"],
       [some "blue", some "white", some "orange", some "black"]],
    habitatInfluence := none }

/-! ## Helper lemmas -/

theorem extendRun_le (cells : Nat → Option String) (t : String) :
    ∀ fuel start, extendRun cells t start fuel ≤ fuel := by
  intro fuel
  induction fuel with
  | zero => intro start; simp [extendRun]
  | succ n ih =>
      intro start
      simp only [extendRun]
      split
      · exact Nat.succ_le_succ (ih (start + 1))
      · exact Nat.zero_le _

theorem extendRun_two (cells : Nat → Option String) (t : String) :
    ∀ fuel start, 2 ≤ extendRun cells t start fuel →
      cells start = some t ∧ cells (start + 1) = some t := by
  intro fuel
  induction fuel with
  | zero => intro start h; simp [extendRun] at h
  | succ n ih =>
      intro start h
      simp only [extendRun] at h
      by_cases hc : cells start = some t
      · rw [if_pos hc] at h
        refine ⟨hc, ?_⟩
        have h1 : 1 ≤ extendRun cells t (start + 1) n := by omega
        cases n with
        | zero => simp [extendRun] at h1
        | succ m =>
            simp only [extendRun] at h1
            by_cases hc2 : cells (start + 1) = some t
            · exact hc2
            · simp [hc2] at h1
      · simp [hc] at h

theorem scanLine_mem (cells : Nat → Option String) (limit : Nat) :
    ∀ fuel pos p, p ∈ scanLine cells limit pos fuel →
      pos ≤ p.1 ∧ 3 ≤ p.2 ∧ p.1 + p.2 ≤ limit := by
  intro fuel
  induction fuel with
  | zero => intro pos p h; simp [scanLine] at h
  | succ n ih =>
      intro pos p h
      simp only [scanLine] at h
      split at h
      · rename_i hlt
        cases hcell : cells pos with
        | none =>
            rw [hcell] at h
            have := ih (pos + 1) p h
            omega
        | some t =>
            rw [hcell] at h
            simp only at h
            split at h
            · rename_i hml
              rcases List.mem_cons.1 h with rfl | hmem
              · refine ⟨Nat.le_refl _, hml, ?_⟩
                have hle := extendRun_le cells t (limit - (pos + 1)) (pos + 1)
                simp only
                omega
              · have := ih _ p hmem
                have h1 : 1 ≤ extendRun cells t (pos + 1) (limit - (pos + 1)) + 1 :=
                  Nat.le_add_left _ _
                omega
            · have := ih _ p h
              omega
      · simp at h

theorem scanLine_eq_nil (cells : Nat → Option String) (limit : Nat)
    (hno : ∀ y a, cells y = some a → cells (y + 1) = some a →
      cells (y + 2) = some a → False) :
    ∀ fuel pos, scanLine cells limit pos fuel = [] := by
  intro fuel
  induction fuel with
  | zero => intro pos; simp [scanLine]
  | succ n ih =>
      intro pos
      simp only [scanLine]
      split
      · cases hcell : cells pos with
        | none => exact ih (pos + 1)
        | some t =>
            simp only
            have hml : ¬ 3 ≤ extendRun cells t (pos + 1) (limit - (pos + 1)) + 1 := by
              intro hml
              have h2 : 2 ≤ extendRun cells t (pos + 1) (limit - (pos + 1)) := by omega
              have := extendRun_two cells t _ _ h2
              exact hno pos t hcell this.1 (by
                have := this.2
                simpa [Nat.add_assoc] using this)
            rw [if_neg hml]
            exact ih _
      · rfl

theorem extendRun_content (cells : Nat → Option String) (t : String) :
    ∀ fuel start i, i < extendRun cells t start fuel → cells (start + i) = some t := by
  intro fuel
  induction fuel with
  | zero => intro start i h; simp [extendRun] at h
  | succ n ih =>
      intro start i h
      simp only [extendRun] at h
      by_cases hc : cells start = some t
      · rw [if_pos hc] at h
        cases i with
        | zero => simpa using hc
        | succ m =>
            have hm : m < extendRun cells t (start + 1) n := by omega
            have := ih (start + 1) m hm
            rwa [show start + 1 + m = start + (m + 1) from by omega] at this
      · rw [if_neg hc] at h
        omega

theorem extendRun_end (cells : Nat → Option String) (t : String) :
    ∀ fuel start, extendRun cells t start fuel = fuel
      ∨ cells (start + extendRun cells t start fuel) ≠ some t := by
  intro fuel
  induction fuel with
  | zero => intro start; left; rfl
  | succ n ih =>
      intro start
      simp only [extendRun]
      by_cases hc : cells start = some t
      · rw [if_pos hc]
        rcases ih (start + 1) with he | he
        · left; omega
        · right
          rwa [show start + (extendRun cells t (start + 1) n + 1)
            = start + 1 + extendRun cells t (start + 1) n from by omega]
      · rw [if_neg hc]
        right
        simpa using hc

theorem extendRun_exact (cells : Nat → Option String) (t : String) :
    ∀ n fuel start, (∀ i < n, cells (start + i) = some t) → n ≤ fuel →
      (n = fuel ∨ cells (start + n) ≠ some t) →
      extendRun cells t start fuel = n := by
  intro n
  induction n with
  | zero =>
      intro fuel start _ _ hdisj
      rcases hdisj with hf | hne
      · rw [← hf]; rfl
      · cases fuel with
        | zero => rfl
        | succ m =>
            simp only [extendRun]
            rw [if_neg (by simpa using hne)]
  | succ m ih =>
      intro fuel start hcont hle hdisj
      cases fuel with
      | zero => omega
      | succ f =>
          simp only [extendRun]
          have hc : cells start = some t := by simpa using hcont 0 (by omega)
          rw [if_pos hc]
          have hinner : extendRun cells t (start + 1) f = m := by
            apply ih f (start + 1)
            · intro i hi
              have := hcont (i + 1) (by omega)
              rwa [show start + (i + 1) = start + 1 + i from by omega] at this
            · omega
            · rcases hdisj with hf | hne
              · left; omega
              · right
                rwa [show start + (m + 1) = start + 1 + m from by omega] at hne
          rw [hinner]

theorem scanLine_stop (cells : Nat → Option String) (limit : Nat) (fuel pos : Nat)
    (h : limit - 2 ≤ pos) : scanLine cells limit pos fuel = [] := by
  cases fuel with
  | zero => rfl
  | succ n =>
      simp only [scanLine]
      rw [if_neg (by omega)]

theorem scanLine_sound (cells : Nat → Option String) (limit : Nat) :
    ∀ fuel pos,
      (∀ t0, cells pos = some t0 → pos = 0 ∨ cells (pos - 1) ≠ some t0) →
      ∀ p ∈ scanLine cells limit pos fuel, ∃ t,
        3 ≤ p.2 ∧ p.1 + p.2 ≤ limit
        ∧ (∀ i < p.2, cells (p.1 + i) = some t)
        ∧ (p.1 = 0 ∨ cells (p.1 - 1) ≠ some t)
        ∧ (p.1 + p.2 = limit ∨ cells (p.1 + p.2) ≠ some t) := by
  intro fuel
  induction fuel with
  | zero => intro pos _ p hp; simp [scanLine] at hp
  | succ n ih =>
      intro pos hJ p hp
      simp only [scanLine] at hp
      split at hp
      · rename_i hguard
        cases hcell : cells pos with
        | none =>
            rw [hcell] at hp
            refine ih (pos + 1) ?_ p hp
            intro t0 _
            right
            simp [hcell]
        | some t =>
            rw [hcell] at hp
            simp only at hp
            have hextle := extendRun_le cells t (limit - (pos + 1)) (pos + 1)
            have hcont : ∀ i < extendRun cells t (pos + 1) (limit - (pos + 1)) + 1,
                cells (pos + i) = some t := by
              intro i hi
              cases i with
              | zero => simpa using hcell
              | succ m =>
                  have := extendRun_content cells t (limit - (pos + 1)) (pos + 1) m
                    (by omega)
                  rwa [show pos + 1 + m = pos + (m + 1) from by omega] at this
            have hb : pos + (extendRun cells t (pos + 1) (limit - (pos + 1)) + 1) ≤ limit := by
              omega
            have hrt : pos + (extendRun cells t (pos + 1) (limit - (pos + 1)) + 1) = limit
                ∨ cells (pos + (extendRun cells t (pos + 1) (limit - (pos + 1)) + 1))
                  ≠ some t := by
              rcases extendRun_end cells t (limit - (pos + 1)) (pos + 1) with he | he
              · left; omega
              · right
                rwa [show pos + (extendRun cells t (pos + 1) (limit - (pos + 1)) + 1)
                  = pos + 1 + extendRun cells t (pos + 1) (limit - (pos + 1)) from by omega]
            have hrest_sound :
                p ∈ scanLine cells limit
                  (pos + (extendRun cells t (pos + 1) (limit - (pos + 1)) + 1)) n →
                ∃ t1, 3 ≤ p.2 ∧ p.1 + p.2 ≤ limit
                  ∧ (∀ i < p.2, cells (p.1 + i) = some t1)
                  ∧ (p.1 = 0 ∨ cells (p.1 - 1) ≠ some t1)
                  ∧ (p.1 + p.2 = limit ∨ cells (p.1 + p.2) ≠ some t1) := by
              intro hq
              rcases hrt with hlim | hne
              · rw [hlim, scanLine_stop cells limit n limit (by omega)] at hq
                simp at hq
              · refine ih _ ?_ p hq
                intro t0 h0
                right
                have hlast : cells (pos + (extendRun cells t (pos + 1)
                    (limit - (pos + 1)) + 1) - 1) = some t := by
                  have := hcont (extendRun cells t (pos + 1) (limit - (pos + 1)))
                    (by omega)
                  rwa [show pos + (extendRun cells t (pos + 1) (limit - (pos + 1)) + 1) - 1
                    = pos + extendRun cells t (pos + 1) (limit - (pos + 1)) from by omega]
                intro hcontra
                rw [hlast] at hcontra
                injection hcontra with ht0
                rw [← ht0] at h0
                exact hne h0
            split at hp
            · rename_i h3
              rcases List.mem_cons.1 hp with rfl | hmem
              · exact ⟨t, h3, hb, hcont, hJ t hcell, hrt⟩
              · exact hrest_sound hmem
            · exact hrest_sound hp
      · simp at hp

theorem scanLine_pairwise (cells : Nat → Option String) (limit : Nat) :
    ∀ fuel pos, List.Pairwise (fun p q : Nat × Nat => p.1 + p.2 ≤ q.1)
      (scanLine cells limit pos fuel) := by
  intro fuel
  induction fuel with
  | zero => intro pos; simp [scanLine]
  | succ n ih =>
      intro pos
      simp only [scanLine]
      split
      · cases hcell : cells pos with
        | none => exact ih (pos + 1)
        | some t =>
            simp only
            split
            · refine List.Pairwise.cons ?_ (ih _)
              intro q hq
              exact (scanLine_mem cells limit n _ q hq).1
            · exact ih _
      · exact List.Pairwise.nil

theorem scanLine_complete (cells : Nat → Option String) (limit s ml : Nat) (t : String)
    (h3 : 3 ≤ ml) (hb : s + ml ≤ limit)
    (hcont : ∀ i < ml, cells (s + i) = some t)
    (hleft : s = 0 ∨ cells (s - 1) ≠ some t)
    (hright : s + ml = limit ∨ cells (s + ml) ≠ some t) :
    ∀ fuel pos, limit ≤ fuel + pos → pos ≤ s →
      (s, ml) ∈ scanLine cells limit pos fuel := by
  intro fuel
  induction fuel with
  | zero => intro pos hf hps; omega
  | succ n ih =>
      intro pos hf hps
      have hguard : pos < limit - 2 := by omega
      simp only [scanLine]
      rw [if_pos hguard]
      by_cases hpos : pos = s
      · subst hpos
        have hc : cells pos = some t := by simpa using hcont 0 (by omega)
        rw [hc]
        simp only
        have hex : extendRun cells t (pos + 1) (limit - (pos + 1)) = ml - 1 := by
          apply extendRun_exact
          · intro i hi
            have := hcont (i + 1) (by omega)
            rwa [show pos + (i + 1) = pos + 1 + i from by omega] at this
          · omega
          · rcases hright with hl | hr
            · left; omega
            · right
              rwa [show pos + 1 + (ml - 1) = pos + ml from by omega]
        rw [hex, show ml - 1 + 1 = ml from by omega, if_pos h3]
        exact List.mem_cons_self _ _
      · have hlt : pos < s := by omega
        cases hcell : cells pos with
        | none => exact ih (pos + 1) (by omega) (by omega)
        | some t2 =>
            simp only
            have hml2 : pos + (extendRun cells t2 (pos + 1) (limit - (pos + 1)) + 1) ≤ s := by
              by_contra hgt
              push_neg at hgt
              have hrun : ∀ j < extendRun cells t2 (pos + 1) (limit - (pos + 1)) + 1,
                  cells (pos + j) = some t2 := by
                intro j hj
                cases j with
                | zero => simpa using hcell
                | succ m =>
                    have := extendRun_content cells t2 (limit - (pos + 1)) (pos + 1) m
                      (by omega)
                    rwa [show pos + 1 + m = pos + (m + 1) from by omega] at this
              have hs0 : cells s = some t := by simpa using hcont 0 (by omega)
              have hsrun : cells s = some t2 := by
                have := hrun (s - pos) (by omega)
                rwa [show pos + (s - pos) = s from by omega] at this
              have ht2 : t2 = t := by
                rw [hs0] at hsrun
                injection hsrun with h
                exact h.symm
              have hprev : cells (s - 1) = some t2 := by
                have := hrun (s - 1 - pos) (by omega)
                rwa [show pos + (s - 1 - pos) = s - 1 from by omega] at this
              rcases hleft with h0 | hne
              · omega
              · rw [ht2] at hprev
                exact hne hprev
            have hrest := ih (pos + (extendRun cells t2 (pos + 1) (limit - (pos + 1)) + 1))
              (by omega) hml2
            split
            · exact List.mem_cons_of_mem _ hrest
            · exact hrest

theorem range_map_get {α : Type} (f : Nat → α) (ml i : Nat) (hi : i < ml) :
    ((List.range ml).map f).get? i = some (f i) := by
  rw [List.get?_map, List.get?_range hi]
  rfl

theorem mem_vertical_entry (grid : Grid) (height x : Nat) (L : List (Nat × Nat))
    (hL : L ∈ (scanLine (fun y => getGemType grid x y) height 0 height).map
      (fun p => (List.range p.2).map (fun i => (x, p.1 + i)))) :
    ∃ p : Nat × Nat, 3 ≤ p.2 ∧ L.get? 0 = some (x, p.1)
      ∧ L.get? 1 = some (x, p.1 + 1) := by
  rcases List.mem_map.1 hL with ⟨p, hp, rfl⟩
  have h3 := (scanLine_mem _ height height 0 p hp).2.1
  exact ⟨p, h3, range_map_get (fun i => (x, p.1 + i)) p.2 0 (by omega),
    range_map_get (fun i => (x, p.1 + i)) p.2 1 (by omega)⟩

theorem mem_horizontal_entry (grid : Grid) (width y : Nat) (L : List (Nat × Nat))
    (hL : L ∈ (scanLine (fun x => getGemType grid x y) width 0 width).map
      (fun p => (List.range p.2).map (fun i => (p.1 + i, y)))) :
    ∃ p : Nat × Nat, 3 ≤ p.2 ∧ L.get? 0 = some (p.1, y)
      ∧ L.get? 1 = some (p.1 + 1, y) := by
  rcases List.mem_map.1 hL with ⟨p, hp, rfl⟩
  have h3 := (scanLine_mem _ width width 0 p hp).2.1
  exact ⟨p, h3, range_map_get (fun i => (p.1 + i, y)) p.2 0 (by omega),
    range_map_get (fun i => (p.1 + i, y)) p.2 1 (by omega)⟩

theorem scanLine_nodup (cells : Nat → Option String) (limit fuel pos : Nat) :
    (scanLine cells limit pos fuel).Nodup := by
  refine List.Pairwise.imp_of_mem ?_ (scanLine_pairwise cells limit fuel pos)
  intro p q hp hq hle heq
  have hq3 := (scanLine_mem cells limit fuel pos q hq).2.1
  rw [heq] at hle
  omega

theorem vertical_column_nodup (grid : Grid) (height x : Nat) :
    ((scanLine (fun y => getGemType grid x y) height 0 height).map
      (fun p => (List.range p.2).map (fun i => (x, p.1 + i)))).Nodup := by
  apply List.Nodup.map_on ?_ (scanLine_nodup _ height height 0)
  intro p hp q hq heq
  have hp3 := (scanLine_mem _ height height 0 p hp).2.1
  have hq3 := (scanLine_mem _ height height 0 q hq).2.1
  have hlen : p.2 = q.2 := by
    have := congrArg List.length heq
    simpa using this
  have h0 : (some (x, p.1 + 0) : Option (Nat × Nat)) = some (x, q.1 + 0) := by
    rw [← range_map_get (fun i => (x, p.1 + i)) p.2 0 (by omega), heq,
      range_map_get (fun i => (x, q.1 + i)) q.2 0 (by omega)]
  have h1 : p.1 = q.1 := by
    injection h0 with h
    have := congrArg Prod.snd h
    simpa using this
  obtain ⟨p1, p2⟩ := p
  obtain ⟨q1, q2⟩ := q
  simp only at hlen h1
  rw [hlen, h1]

theorem horizontal_row_nodup (grid : Grid) (width y : Nat) :
    ((scanLine (fun x => getGemType grid x y) width 0 width).map
      (fun p => (List.range p.2).map (fun i => (p.1 + i, y)))).Nodup := by
  apply List.Nodup.map_on ?_ (scanLine_nodup _ width width 0)
  intro p hp q hq heq
  have hp3 := (scanLine_mem _ width width 0 p hp).2.1
  have hq3 := (scanLine_mem _ width width 0 q hq).2.1
  have hlen : p.2 = q.2 := by
    have := congrArg List.length heq
    simpa using this
  have h0 : (some (p.1 + 0, y) : Option (Nat × Nat)) = some (q.1 + 0, y) := by
    rw [← range_map_get (fun i => (p.1 + i, y)) p.2 0 (by omega), heq,
      range_map_get (fun i => (q.1 + i, y)) q.2 0 (by omega)]
  have h1 : p.1 = q.1 := by
    injection h0 with h
    have := congrArg Prod.fst h
    simpa using this
  obtain ⟨p1, p2⟩ := p
  obtain ⟨q1, q2⟩ := q
  simp only at hlen h1
  rw [hlen, h1]

theorem getMatches_nodup (width height : Nat) (grid : Grid) :
    (getMatches width height grid).Nodup := by
  rw [getMatches]
  split
  · exact List.nodup_nil
  · apply List.Nodup.append
    · rw [List.nodup_flatMap]
      constructor
      · intro x hx
        exact vertical_column_nodup grid height x
      · refine List.Pairwise.imp ?_ (List.pairwise_lt_range width)
        intro x1 x2 hlt L hL1 hL2
        rcases mem_vertical_entry grid height x1 L hL1 with ⟨p, hp3, hp0, hp1⟩
        rcases mem_vertical_entry grid height x2 L hL2 with ⟨q, hq3, hq0, hq1⟩
        rw [hp0] at hq0
        injection hq0 with h
        have := congrArg Prod.fst h
        simp only at this
        omega
    · rw [List.nodup_flatMap]
      constructor
      · intro y hy
        exact horizontal_row_nodup grid width y
      · refine List.Pairwise.imp ?_ (List.pairwise_lt_range height)
        intro y1 y2 hlt L hL1 hL2
        rcases mem_horizontal_entry grid width y1 L hL1 with ⟨p, hp3, hp0, hp1⟩
        rcases mem_horizontal_entry grid width y2 L hL2 with ⟨q, hq3, hq0, hq1⟩
        rw [hp0] at hq0
        injection hq0 with h
        have := congrArg Prod.snd h
        simp only at this
        omega
    · intro L hLv hLh
      rw [List.mem_flatMap] at hLv hLh
      rcases hLv with ⟨x, hx, hLx⟩
      rcases hLh with ⟨y, hy, hLy⟩
      rcases mem_vertical_entry grid height x L hLx with ⟨p, hp3, hp0, hp1⟩
      rcases mem_horizontal_entry grid width y L hLy with ⟨q, hq3, hq0, hq1⟩
      rw [hp0] at hq0
      rw [hp1] at hq1
      injection hq0 with h0
      injection hq1 with h1
      have h0f := congrArg Prod.fst h0
      have h0s := congrArg Prod.snd h0
      have h1f := congrArg Prod.fst h1
      have h1s := congrArg Prod.snd h1
      simp only at h0f h0s h1f h1s
      omega

theorem getMatches_complete_vert (grid : Grid) (width height x s ml : Nat) (t : String)
    (hx : x < width) (h3 : 3 ≤ ml) (hb : s + ml ≤ height)
    (hcont : ∀ i < ml, getGemType grid x (s + i) = some t)
    (hleft : s = 0 ∨ getGemType grid x (s - 1) ≠ some t)
    (hright : s + ml = height ∨ getGemType grid x (s + ml) ≠ some t) :
    (List.range ml).map (fun i => (x, s + i)) ∈ getMatches width height grid := by
  rw [getMatches]
  rw [if_neg (by omega : ¬(width = 0 ∨ height = 0))]
  apply List.mem_append_left
  rw [List.mem_flatMap]
  refine ⟨x, List.mem_range.2 hx, ?_⟩
  rw [List.mem_map]
  refine ⟨(s, ml), ?_, rfl⟩
  exact scanLine_complete (fun yy => getGemType grid x yy) height s ml t h3 hb hcont
    hleft hright height 0 (by omega) (Nat.zero_le s)

theorem getMatches_complete_horiz (grid : Grid) (width height y s ml : Nat) (t : String)
    (hy : y < height) (h3 : 3 ≤ ml) (hb : s + ml ≤ width)
    (hcont : ∀ i < ml, getGemType grid (s + i) y = some t)
    (hleft : s = 0 ∨ getGemType grid (s - 1) y ≠ some t)
    (hright : s + ml = width ∨ getGemType grid (s + ml) y ≠ some t) :
    (List.range ml).map (fun i => (s + i, y)) ∈ getMatches width height grid := by
  rw [getMatches]
  rw [if_neg (by omega : ¬(width = 0 ∨ height = 0))]
  apply List.mem_append_right
  rw [List.mem_flatMap]
  refine ⟨y, List.mem_range.2 hy, ?_⟩
  rw [List.mem_map]
  refine ⟨(s, ml), ?_, rfl⟩
  exact scanLine_complete (fun xx => getGemType grid xx y) width s ml t h3 hb hcont
    hleft hright width 0 (by omega) (Nat.zero_le s)

theorem tmod_gt_neg (a : Int) (n : Nat) (h : 0 < n) : -(n : Int) < a.tmod n := by
  cases a with
  | ofNat m =>
      have h1 : (0 : Int) ≤ (Int.ofNat m).tmod n := Int.tmod_nonneg _ (Int.ofNat_nonneg m)
      have hn : (0 : Int) < n := by exact_mod_cast h
      omega
  | negSucc m =>
      have h1 : (Int.negSucc m).tmod (Int.ofNat n) = -Int.ofNat ((m + 1) % n) := rfl
      have h2 : (m + 1) % n < n := Nat.mod_lt _ h
      have hcast : (Int.ofNat n) = (n : Int) := rfl
      rw [← hcast, h1]
      have h3 : (Int.ofNat ((m + 1) % n)) = (((m + 1) % n : Nat) : Int) := rfl
      rw [h3]
      omega

/-- The JS normalization `((amount % len) + len) % len` is exactly the
Euclidean remainder of `amount` modulo `len`. -/
theorem effAmount_eq_emod (a : Int) (n : Nat) (h : 0 < n) :
    effAmount a n = a % n := by
  have hn : (0 : Int) < n := by exact_mod_cast h
  have hlow := tmod_gt_neg a n h
  have hx : (0 : Int) ≤ a.tmod n + n := by omega
  rw [effAmount, Int.tmod_eq_emod hx hn.le]
  have h3 := Int.add_mul_emod_self_left (a.tmod n) (n : Int) 1
  rw [mul_one] at h3
  rw [h3]
  conv_rhs => rw [← Int.tmod_add_tdiv a (n : Int)]
  rw [Int.add_mul_emod_self_left]

theorem effAmount_nonneg_lt (a : Int) (n : Nat) (h : 0 < n) :
    0 ≤ effAmount a n ∧ effAmount a n < n := by
  have hn : (0 : Int) < n := by exact_mod_cast h
  rw [effAmount_eq_emod a n h]
  exact ⟨Int.emod_nonneg a (by omega), Int.emod_lt_of_pos a hn⟩

theorem getD_mod_mem {l : List String} (d : String) (n : Nat) (h : l ≠ []) :
    l.getD (n % l.length) d ∈ l := by
  have hlen : 0 < l.length := List.length_pos.2 h
  have hlt : n % l.length < l.length := Nat.mod_lt _ hlen
  rw [List.getD_eq_getElem l d hlt]
  exact List.getElem_mem hlt

/-! ## Claim C10: the manual spawn queue is not validated -/

/-- Claim C10: when the manual spawn queue is non-empty the spawn routine
returns the oldest queued value verbatim, whatever it is, and only pops the
queue; when the queue is empty the returned type is always a member of
GEM_TYPES. -/
theorem spawn_queue_unvalidated :
    (∀ (st : BackendPuzzle) (g : String) (rest : List String) (r : Nat × Nat),
        st.nextGemsToSpawn = g :: rest →
        getNextGemToSpawnType st r = (g, { st with nextGemsToSpawn := rest }))
    ∧ (∀ (st : BackendPuzzle) (r : Nat × Nat), st.nextGemsToSpawn = [] →
        (getNextGemToSpawnType st r).1 ∈ GEM_TYPES) := by
  constructor
  · intro st g rest r hq
    simp [getNextGemToSpawnType, hq]
  · intro st r hq
    have hne : GEM_TYPES ≠ [] := by decide
    simp only [getNextGemToSpawnType, hq]
    cases st.habitatInfluence with
    | none => exact getD_mod_mem _ _ hne
    | some hs =>
        simp only
        split
        · split
          · rename_i mapped hmap
            split
            · rename_i hcond
              exact hcond.2
            · exact getD_mod_mem _ _ hne
          · exact getD_mod_mem _ _ hne
        · exact getD_mod_mem _ _ hne

/-- Witness for C10 at concrete inputs: the queued value "lava" is not a gem
type, yet it is spawned verbatim; with an empty queue the spawned type is a
gem type. -/
theorem spawn_queue_unvalidated_witness :
    (getNextGemToSpawnType
        { width := 3, height := 3, nextGemsToSpawn := ["lava"],
          puzzleState := [], habitatInfluence := none } (0, 0)
      = ("lava", ({ width := 3, height := 3, nextGemsToSpawn := [],
                    puzzleState := [], habitatInfluence := none } : BackendPuzzle)))
    ∧ "lava" ∉ GEM_TYPES
    ∧ (getNextGemToSpawnType
        { width := 3, height := 3, nextGemsToSpawn := [],
          puzzleState := [], habitatInfluence := none } (0, 0)).1 ∈ GEM_TYPES := by
  refine ⟨spawn_queue_unvalidated.1 _ "lava" [] (0, 0) rfl, by decide, ?_⟩
  exact spawn_queue_unvalidated.2 _ (0, 0) rfl

/-! ## Claim C4: setHabitatInfluence does not regenerate the grid -/

/-- Counterexample to claim C4: calling `setHabitatInfluence` on a state whose
grid is entirely red leaves the grid exactly as it was, and the resulting grid
is still full of matches, so it is not a freshly generated match-free grid. -/
theorem setHabitatInfluence_counterexample :
    (setHabitatInfluence allRedState (some [some 100])).puzzleState
        = allRedState.puzzleState
    ∧ (setHabitatInfluence allRedState (some [some 100])).habitatInfluence
        = some [100]
    ∧ getMatches 3 3 (setHabitatInfluence allRedState (some [some 100])).puzzleState
        ≠ [] := by decide

/-- Claim C4 as amended: `setHabitatInfluence` replaces the influence
weighting (the new weighting is a function of the argument alone, independent
of the previous weighting) but performs no grid regeneration: the grid, the
dimensions and the spawn queue are left untouched. -/
theorem setHabitatInfluence_replaces_weighting_only :
    ∀ (st st2 : BackendPuzzle) (v : Option (List (Option Int))),
      (setHabitatInfluence st v).puzzleState = st.puzzleState
      ∧ (setHabitatInfluence st v).width = st.width
      ∧ (setHabitatInfluence st v).height = st.height
      ∧ (setHabitatInfluence st v).nextGemsToSpawn = st.nextGemsToSpawn
      ∧ (setHabitatInfluence st v).habitatInfluence
          = (setHabitatInfluence st2 v).habitatInfluence := by
  intro st st2 v
  cases v with
  | none => simp [setHabitatInfluence]
  | some vs =>
      simp only [setHabitatInfluence]
      split <;> simp

/-! ## Claim C5: no replacement safety check exists -/

/-- Counterexample to claim C5: in `spawnRunState` the only match is the top
blue row; the survivors of column 0 start with two reds, and gem types other
than red are available, yet the spawn routine returns the queued red with no
safety check: the committed column 0 is red, red, red, green, a brand-new
vertical run directly beneath the spawn point, and the post-commit grid
contains that run as a match. -/
theorem replacement_safety_counterexample :
    ((getNextExplodeAndReplacePhase spawnRunState [] (fun _ => (0, 0))).1.matches
        = [[(0, 0), (1, 0), (2, 0)]])
    ∧ ((getNextExplodeAndReplacePhase spawnRunState [] (fun _ => (0, 0))).1.replacements.lookup 0
        = some ["red"])
    ∧ ((getNextExplodeAndReplacePhase spawnRunState [] (fun _ => (0, 0))).2.puzzleState.get? 0
        = some [some "red", some "red", some "red", some "green"])
    ∧ "blue" ∈ GEM_TYPES ∧ "blue" ≠ "red"
    ∧ getMatches 3 4
        (getNextExplodeAndReplacePhase spawnRunState [] (fun _ => (0, 0))).2.puzzleState
        = [[(0, 0), (0, 1), (0, 2)]] := by decide

/-- Claim C5 as amended: replacement tokens are chosen with no safety check
against the post-removal column: the spawn routine never inspects the grid at
all, so two states differing only in their grid produce the identical spawn
result, and a replacement can create a brand-new vertical run directly beneath
its spawn point (as the counterexample shows). -/
theorem spawn_ignores_grid :
    ∀ (st : BackendPuzzle) (grid2 : Grid) (r : Nat × Nat),
      getNextGemToSpawnType { st with puzzleState := grid2 } r
        = ((getNextGemToSpawnType st r).1,
           { (getNextGemToSpawnType st r).2 with puzzleState := grid2 }) := by
  intro st grid2 r
  obtain ⟨w, h, q, ps, hi⟩ := st
  cases q with
  | cons g rest => rfl
  | nil =>
      cases hi with
      | none => rfl
      | some hs =>
          simp only [getNextGemToSpawnType]
          by_cases h1 : 0 < hs.length

          · rw [if_pos h1, if_pos h1]
            cases hlk : HABITAT_GEM_MAP.lookup (hs.getD (r.1 % hs.length) 0) with
            | none => rfl
            | some mapped =>
                dsimp only
                by_cases h2 : mapped ≠ "" ∧ mapped ∈ GEM_TYPES
                · rw [if_pos h2, if_pos h2]
                · rw [if_neg h2, if_neg h2]
          · rw [if_neg h1, if_neg h1]

/-! ## Claim C7: a phase with no matches is a no-op with nothing to do -/

/-- Claim C7: when match detection on the post-move state finds no matches,
the stored grid afterwards is exactly the post-move state and the returned
phase has nothing to do; the replacements list is empty whenever the matches
list is empty, and isNothingToDo holds iff the matches list is empty. -/
theorem phase_no_matches_is_noop (st : BackendPuzzle) (actions : List MoveAction)
    (rng : Nat → Nat × Nat) :
    (getMatches st.width st.height
        (actions.foldl (fun g a => applyMoveToGrid st.width st.height g a)
          st.puzzleState) = [] →
      (getNextExplodeAndReplacePhase st actions rng).2.puzzleState
          = actions.foldl (fun g a => applyMoveToGrid st.width st.height g a)
              st.puzzleState
        ∧ (getNextExplodeAndReplacePhase st actions rng).1.isNothingToDo = true)
    ∧ ((getNextExplodeAndReplacePhase st actions rng).1.matches = [] →
        (getNextExplodeAndReplacePhase st actions rng).1.replacements = [])
    ∧ ((getNextExplodeAndReplacePhase st actions rng).1.isNothingToDo = true
        ↔ (getNextExplodeAndReplacePhase st actions rng).1.matches = []) := by
  refine ⟨?_, ?_, ?_⟩
  · intro hnil
    simp only [getNextExplodeAndReplacePhase, hnil, ExplodeAndReplacePhase.isNothingToDo]
    simp
  · intro hnil
    have hnil2 : getMatches st.width st.height
        (actions.foldl (fun g a => applyMoveToGrid st.width st.height g a)
          st.puzzleState) = [] := hnil
    simp only [getNextExplodeAndReplacePhase, hnil2]
    simp
  · simp only [getNextExplodeAndReplacePhase, ExplodeAndReplacePhase.isNothingToDo]
    exact List.isEmpty_iff

/-- Witness for C7: on a 1-by-1 grid with no actions there are no matches, the
grid is unchanged and the phase has nothing to do. -/
theorem phase_no_matches_is_noop_witness :
    (getNextExplodeAndReplacePhase
        ⟨1, 1, [], [[some "red"]], none⟩ [] (fun _ => (0, 0))).2.puzzleState
      = [[some "red"]]
    ∧ (getNextExplodeAndReplacePhase
        ⟨1, 1, [], [[some "red"]], none⟩ [] (fun _ => (0, 0))).1.isNothingToDo = true := by
  have h := (phase_no_matches_is_noop ⟨1, 1, [], [[some "red"]], none⟩ []
    (fun _ => (0, 0))).1 (by decide)
  exact h

/-! ## Claim C8: out-of-bounds or zero-modulo moves are silent no-ops -/

/-- Claim C8: a move whose line index is out of bounds for its axis, or whose
amount is congruent to 0 modulo the line length, leaves the entire grid
unchanged (a silent no-op, not an error); and every amount acts exactly as its
value reduced modulo the line length. -/
theorem applyMoveToGrid_noop_and_mod (width height : Nat) (grid : Grid)
    (m : MoveAction) (hw : 0 < width) (hh : 0 < height) :
    ((m.rowOrCol = RowOrCol.row ∧ (m.index < 0 ∨ (height : Int) ≤ m.index)) →
      applyMoveToGrid width height grid m = grid)
    ∧ ((m.rowOrCol = RowOrCol.col ∧ (m.index < 0 ∨ (width : Int) ≤ m.index)) →
      applyMoveToGrid width height grid m = grid)
    ∧ ((m.rowOrCol = RowOrCol.row ∧ m.amount % (width : Int) = 0) →
      applyMoveToGrid width height grid m = grid)
    ∧ ((m.rowOrCol = RowOrCol.col ∧ m.amount % (height : Int) = 0) →
      applyMoveToGrid width height grid m = grid)
    ∧ (applyMoveToGrid width height grid m
        = applyMoveToGrid width height grid
            ⟨m.rowOrCol, m.index,
              m.amount % (((match m.rowOrCol with
                | RowOrCol.row => width
                | RowOrCol.col => height) : Nat) : Int)⟩) := by
  obtain ⟨mrc, midx, mamt⟩ := m
  refine ⟨?_, ?_, ?_, ?_, ?_⟩
  · rintro ⟨hrc, hoob⟩
    cases hrc
    by_cases h0 : mamt = 0
    · simp [applyMoveToGrid, h0]
    · simp only [applyMoveToGrid, if_neg h0]
      by_cases he : effAmount mamt width = 0
      · rw [if_pos he]
      · rw [if_neg he, if_pos hoob]
  · rintro ⟨hrc, hoob⟩
    cases hrc
    by_cases h0 : mamt = 0
    · simp [applyMoveToGrid, h0]
    · simp only [applyMoveToGrid, if_neg h0]
      by_cases he : effAmount mamt height = 0
      · rw [if_pos he]
      · rw [if_neg he, if_pos (show midx < 0 ∨ (width : Int) ≤ midx
            ∨ (grid.get? midx.toNat).isNone = true by
          rcases hoob with h | h
          · exact Or.inl h
          · exact Or.inr (Or.inl h))]
  · rintro ⟨hrc, hz⟩
    cases hrc
    by_cases h0 : mamt = 0
    · simp [applyMoveToGrid, h0]
    · simp only [applyMoveToGrid, if_neg h0]
      rw [if_pos (by rw [effAmount_eq_emod mamt width hw]; exact hz)]
  · rintro ⟨hrc, hz⟩
    cases hrc
    by_cases h0 : mamt = 0
    · simp [applyMoveToGrid, h0]
    · simp only [applyMoveToGrid, if_neg h0]
      rw [if_pos (by rw [effAmount_eq_emod mamt height hh]; exact hz)]
  · cases mrc with
    | row =>
        by_cases h0 : mamt = 0
        · subst h0
          rw [show (0 : Int) % (width : Int) = 0 from Int.zero_emod _]
        · by_cases h1 : mamt % (width : Int) = 0
          · simp only [applyMoveToGrid, if_neg h0, if_pos h1]
            rw [if_pos (by rw [effAmount_eq_emod mamt width hw]; exact h1)]
          · have heq : effAmount mamt width = effAmount (mamt % (width : Int)) width := by
              rw [effAmount_eq_emod mamt width hw,
                effAmount_eq_emod (mamt % (width : Int)) width hw]
              exact (Int.emod_emod_of_dvd mamt dvd_rfl).symm
            simp only [applyMoveToGrid, if_neg h0, if_neg h1]
            rw [heq]
    | col =>
        by_cases h0 : mamt = 0
        · subst h0
          rw [show (0 : Int) % (height : Int) = 0 from Int.zero_emod _]
        · by_cases h1 : mamt % (height : Int) = 0
          · simp only [applyMoveToGrid, if_neg h0, if_pos h1]
            rw [if_pos (by rw [effAmount_eq_emod mamt height hh]; exact h1)]
          · have heq : effAmount mamt height = effAmount (mamt % (height : Int)) height := by
              rw [effAmount_eq_emod mamt height hh,
                effAmount_eq_emod (mamt % (height : Int)) height hh]
              exact (Int.emod_emod_of_dvd mamt dvd_rfl).symm
            simp only [applyMoveToGrid, if_neg h0, if_neg h1]
            rw [heq]

/-- Witness for C8: a row move with index 5 on a 2-by-2 grid is a silent
no-op. -/
theorem applyMoveToGrid_noop_witness :
    applyMoveToGrid 2 2 [[some "red", some "blue"], [some "green", some "white"]]
        ⟨RowOrCol.row, 5, 1⟩
      = [[some "red", some "blue"], [some "green", some "white"]] :=
  (applyMoveToGrid_noop_and_mod 2 2
    [[some "red", some "blue"], [some "green", some "white"]]
    ⟨RowOrCol.row, 5, 1⟩ (by decide) (by decide)).1 ⟨rfl, by decide⟩

/-! ## Generation avoids runs of three: candidate-set lemmas -/

theorem exists_third (gemTypes : List String) (h3 : 3 ≤ gemTypes.toFinset.card)
    (a b : String) : ∃ t, t ∈ gemTypes ∧ t ≠ a ∧ t ≠ b := by
  by_contra hc
  push_neg at hc
  have hsub : gemTypes.toFinset ⊆ {a, b} := by
    intro t ht
    rw [List.mem_toFinset] at ht
    have h := hc t ht
    by_cases hta : t = a
    · simp [hta]
    · simp [h hta]
  have hcard := Finset.card_le_card hsub
  have h2 : ({a, b} : Finset String).card ≤ 2 := by
    have h1 := Finset.card_insert_le a ({b} : Finset String)
    simpa using h1
  omega

theorem gemTypes_ne_nil (gemTypes : List String) (h3 : 3 ≤ gemTypes.toFinset.card) :
    gemTypes ≠ [] := by
  intro hnil
  subst hnil
  simp at h3

theorem singleFilter_ne_nil (gemTypes : List String) (h3 : 3 ≤ gemTypes.toFinset.card)
    (o1 : Option String) :
    gemTypes.filter (fun t => o1 ≠ some t) ≠ [] := by
  obtain ⟨t, htmem, hta, _⟩ := exists_third gemTypes h3 (o1.getD "") (o1.getD "")
  intro hnil
  have hmem : t ∈ gemTypes.filter (fun t => o1 ≠ some t) := by
    rw [List.mem_filter]
    refine ⟨htmem, decide_eq_true ?_⟩
    cases o1 with
    | none => simp
    | some v =>
        intro hcontra
        injection hcontra with hv
        exact hta hv.symm
  rw [hnil] at hmem
  simp at hmem

theorem doubleFilter_ne_nil (gemTypes : List String) (h3 : 3 ≤ gemTypes.toFinset.card)
    (o1 o2 : Option String) :
    (gemTypes.filter (fun t => o1 ≠ some t)).filter (fun t => o2 ≠ some t) ≠ [] := by
  obtain ⟨t, htmem, hta, htb⟩ := exists_third gemTypes h3 (o1.getD "") (o2.getD "")
  intro hnil
  have hmem : t ∈ (gemTypes.filter (fun t => o1 ≠ some t)).filter
      (fun t => o2 ≠ some t) := by
    rw [List.mem_filter, List.mem_filter]
    refine ⟨⟨htmem, decide_eq_true ?_⟩, decide_eq_true ?_⟩
    · cases o1 with
      | none => simp
      | some v =>
          intro hcontra
          injection hcontra with hv
          exact hta hv.symm
    · cases o2 with
      | none => simp
      | some v =>
          intro hcontra
          injection hcontra with hv
          exact htb hv.symm
  rw [hnil] at hmem
  simp at hmem

theorem chooseGem_avoids_vert (gemTypes : List String) (cols : Grid)
    (acc : List Cell) (x idx : Nat) (h3 : 3 ≤ gemTypes.toFinset.card) (a : String)
    (hy : 2 ≤ acc.length)
    (h1 : (acc.get? (acc.length - 1)).bind id = some a)
    (h2 : (acc.get? (acc.length - 2)).bind id = some a) :
    chooseGem gemTypes cols acc x idx ≠ a := by
  simp only [chooseGem]
  rw [h1, h2]
  have hcond : 2 ≤ acc.length ∧ (some a).isSome = true ∧ some a = some a :=
    ⟨hy, rfl, rfl⟩
  rw [if_pos hcond]
  by_cases hP2 : 2 ≤ x ∧ (((cols.get? (x - 1)).bind (fun c => c.get? acc.length)).bind id).isSome
      ∧ ((cols.get? (x - 1)).bind (fun c => c.get? acc.length)).bind id
        = ((cols.get? (x - 2)).bind (fun c => c.get? acc.length)).bind id
  · rw [if_pos hP2]
    have hne := doubleFilter_ne_nil gemTypes h3 (some a)
      (((cols.get? (x - 1)).bind (fun c => c.get? acc.length)).bind id)
    rw [if_neg (by simpa [List.isEmpty_iff] using hne)]
    have hmem := getD_mod_mem "" idx hne
    have hmem2 := (List.mem_filter.1 hmem).1
    have hp1 := (List.mem_filter.1 hmem2).2
    rw [decide_eq_true_eq] at hp1
    intro hcontra
    exact hp1 (by rw [hcontra])
  · rw [if_neg hP2]
    have hne := singleFilter_ne_nil gemTypes h3 (some a)
    rw [if_neg (by simpa [List.isEmpty_iff] using hne)]
    have hmem := getD_mod_mem "" idx hne
    have hp1 := (List.mem_filter.1 hmem).2
    rw [decide_eq_true_eq] at hp1
    intro hcontra
    exact hp1 (by rw [hcontra])

theorem chooseGem_avoids_horiz (gemTypes : List String) (cols : Grid)
    (acc : List Cell) (x idx : Nat) (h3 : 3 ≤ gemTypes.toFinset.card) (b : String)
    (hx : 2 ≤ x)
    (h1 : ((cols.get? (x - 1)).bind (fun c => c.get? acc.length)).bind id = some b)
    (h2 : ((cols.get? (x - 2)).bind (fun c => c.get? acc.length)).bind id = some b) :
    chooseGem gemTypes cols acc x idx ≠ b := by
  simp only [chooseGem]
  rw [h1, h2]
  have hcond : 2 ≤ x ∧ (some b).isSome = true ∧ some b = some b :=
    ⟨hx, rfl, rfl⟩
  rw [if_pos hcond]
  by_cases hP1 : 2 ≤ acc.length ∧ ((acc.get? (acc.length - 1)).bind id).isSome
      ∧ (acc.get? (acc.length - 1)).bind id = (acc.get? (acc.length - 2)).bind id
  · rw [if_pos hP1]
    have hne := doubleFilter_ne_nil gemTypes h3
      ((acc.get? (acc.length - 1)).bind id) (some b)
    rw [if_neg (by simpa [List.isEmpty_iff] using hne)]
    have hmem := getD_mod_mem "" idx hne
    have hp2 := (List.mem_filter.1 hmem).2
    rw [decide_eq_true_eq] at hp2
    intro hcontra
    exact hp2 (by rw [hcontra])
  · rw [if_neg hP1]
    have hne := singleFilter_ne_nil gemTypes h3 (some b)
    rw [if_neg (by simpa [List.isEmpty_iff] using hne)]
    have hmem := getD_mod_mem "" idx hne
    have hp2 := (List.mem_filter.1 hmem).2
    rw [decide_eq_true_eq] at hp2
    intro hcontra
    exact hp2 (by rw [hcontra])


/-! ## Characterization of the generated columns and grid -/

theorem buildColumnGo_length (gemTypes : List String) (oracle : Nat → Nat → Nat)
    (cols : Grid) (x : Nat) :
    ∀ n acc, (buildColumnGo gemTypes oracle cols x n acc).length = acc.length + n := by
  intro n
  induction n with
  | zero => intro acc; simp [buildColumnGo]
  | succ m ih =>
      intro acc
      simp only [buildColumnGo]
      rw [ih]
      simp
      omega

theorem buildColumnGo_take (gemTypes : List String) (oracle : Nat → Nat → Nat)
    (cols : Grid) (x : Nat) :
    ∀ n acc, (buildColumnGo gemTypes oracle cols x n acc).take acc.length = acc := by
  intro n
  induction n with
  | zero => intro acc; simp [buildColumnGo]
  | succ m ih =>
      intro acc
      simp only [buildColumnGo]
      have ih2 := ih (acc ++ [some (chooseGem gemTypes cols acc x (oracle x acc.length))])
      rw [List.length_append, List.length_singleton] at ih2
      have hstep : (buildColumnGo gemTypes oracle cols x m
            (acc ++ [some (chooseGem gemTypes cols acc x (oracle x acc.length))])).take acc.length
          = ((buildColumnGo gemTypes oracle cols x m
            (acc ++ [some (chooseGem gemTypes cols acc x (oracle x acc.length))])).take
              (acc.length + 1)).take acc.length := by
        rw [List.take_take]
        congr 1
        omega
      rw [hstep, ih2, List.take_left]

theorem buildColumnGo_get_stable (gemTypes : List String) (oracle : Nat → Nat → Nat)
    (cols : Grid) (x : Nat) (n : Nat) (acc : List Cell) (i : Nat) (hi : i < acc.length) :
    (buildColumnGo gemTypes oracle cols x n acc).get? i = acc.get? i := by
  conv_rhs => rw [← buildColumnGo_take gemTypes oracle cols x n acc]
  rw [List.get?_take hi]

theorem buildColumnGo_cell (gemTypes : List String) (oracle : Nat → Nat → Nat)
    (cols : Grid) (x : Nat) :
    ∀ n acc y, acc.length ≤ y → y < acc.length + n →
      (buildColumnGo gemTypes oracle cols x n acc).get? y
        = some (some (chooseGem gemTypes cols
            ((buildColumnGo gemTypes oracle cols x n acc).take y) x (oracle x y))) := by
  intro n
  induction n with
  | zero => intro acc y h1 h2; omega
  | succ m ih =>
      intro acc y h1 h2
      simp only [buildColumnGo]
      by_cases hy : y = acc.length
      · subst hy
        have hlt : acc.length
            < (acc ++ [some (chooseGem gemTypes cols acc x (oracle x acc.length))]).length := by
          simp
        rw [buildColumnGo_get_stable gemTypes oracle cols x m _ acc.length hlt]
        have htake : (buildColumnGo gemTypes oracle cols x m
              (acc ++ [some (chooseGem gemTypes cols acc x (oracle x acc.length))])).take
                acc.length = acc := by
          have ih2 := buildColumnGo_take gemTypes oracle cols x m
            (acc ++ [some (chooseGem gemTypes cols acc x (oracle x acc.length))])
          rw [List.length_append, List.length_singleton] at ih2
          have hstep : (buildColumnGo gemTypes oracle cols x m
                (acc ++ [some (chooseGem gemTypes cols acc x (oracle x acc.length))])).take
                  acc.length
              = ((buildColumnGo gemTypes oracle cols x m
                (acc ++ [some (chooseGem gemTypes cols acc x (oracle x acc.length))])).take
                  (acc.length + 1)).take acc.length := by
            rw [List.take_take]
            congr 1
            omega
          rw [hstep, ih2, List.take_left]
        rw [htake]
        exact List.get?_concat_length acc _
      · have h1b : (acc ++ [some (chooseGem gemTypes cols acc x (oracle x acc.length))]).length
            ≤ y := by
          simp only [List.length_append, List.length_singleton]
          omega
        have h2b : y < (acc ++ [some (chooseGem gemTypes cols acc x
            (oracle x acc.length))]).length + m := by
          simp only [List.length_append, List.length_singleton]
          omega
        exact ih _ y h1b h2b

theorem buildColumn_length (gemTypes : List String) (oracle : Nat → Nat → Nat)
    (cols : Grid) (x height : Nat) :
    (buildColumn gemTypes oracle cols x height).length = height := by
  rw [buildColumn, buildColumnGo_length]
  simp

theorem buildColumn_cell (gemTypes : List String) (oracle : Nat → Nat → Nat)
    (cols : Grid) (x height y : Nat) (hy : y < height) :
    (buildColumn gemTypes oracle cols x height).get? y
      = some (some (chooseGem gemTypes cols
          ((buildColumn gemTypes oracle cols x height).take y) x (oracle x y))) := by
  rw [buildColumn]
  exact buildColumnGo_cell gemTypes oracle cols x height [] y (Nat.zero_le y) (by simpa using hy)

theorem buildColumn_no_vert_triple (gemTypes : List String) (oracle : Nat → Nat → Nat)
    (cols : Grid) (x height : Nat) (h3 : 3 ≤ gemTypes.toFinset.card) :
    ∀ y a, (buildColumn gemTypes oracle cols x height).get? y = some (some a) →
      (buildColumn gemTypes oracle cols x height).get? (y + 1) = some (some a) →
      (buildColumn gemTypes oracle cols x height).get? (y + 2) = some (some a) → False := by
  intro y a hy hy1 hy2
  have hlen : y + 2 < height := by
    obtain ⟨hlt, _⟩ := List.get?_eq_some.1 hy2
    rwa [buildColumn_length] at hlt
  have hcell := buildColumn_cell gemTypes oracle cols x height (y + 2) hlen
  rw [hy2] at hcell
  have hc : a = chooseGem gemTypes cols
      ((buildColumn gemTypes oracle cols x height).take (y + 2)) x (oracle x (y + 2)) := by
    injection hcell with h4
    injection h4
  have hacclen : ((buildColumn gemTypes oracle cols x height).take (y + 2)).length
      = y + 2 := by
    rw [List.length_take, buildColumn_length]
    omega
  apply chooseGem_avoids_vert gemTypes cols
      ((buildColumn gemTypes oracle cols x height).take (y + 2)) x (oracle x (y + 2)) h3 a
      (by rw [hacclen]; omega)
      (by rw [hacclen]
          have he : y + 2 - 1 = y + 1 := by omega
          rw [he, List.get?_take (by omega : y + 1 < y + 2), hy1]
          rfl)
      (by rw [hacclen]
          have he : y + 2 - 2 = y := by omega
          rw [he, List.get?_take (by omega : y < y + 2), hy]
          rfl)
  exact hc.symm

theorem buildGridGo_length (gemTypes : List String) (oracle : Nat → Nat → Nat)
    (height : Nat) :
    ∀ n cols, (buildGridGo gemTypes oracle height n cols).length = cols.length + n := by
  intro n
  induction n with
  | zero => intro cols; simp [buildGridGo]
  | succ m ih =>
      intro cols
      simp only [buildGridGo]
      rw [ih]
      simp
      omega

theorem buildGridGo_take (gemTypes : List String) (oracle : Nat → Nat → Nat)
    (height : Nat) :
    ∀ n cols, (buildGridGo gemTypes oracle height n cols).take cols.length = cols := by
  intro n
  induction n with
  | zero => intro cols; simp [buildGridGo]
  | succ m ih =>
      intro cols
      simp only [buildGridGo]
      have ih2 := ih (cols ++ [buildColumn gemTypes oracle cols cols.length height])
      rw [List.length_append, List.length_singleton] at ih2
      have hstep : (buildGridGo gemTypes oracle height m
            (cols ++ [buildColumn gemTypes oracle cols cols.length height])).take cols.length
          = ((buildGridGo gemTypes oracle height m
            (cols ++ [buildColumn gemTypes oracle cols cols.length height])).take
              (cols.length + 1)).take cols.length := by
        rw [List.take_take]
        congr 1
        omega
      rw [hstep, ih2, List.take_left]

theorem buildGridGo_get_stable (gemTypes : List String) (oracle : Nat → Nat → Nat)
    (height : Nat) (n : Nat) (cols : Grid) (i : Nat) (hi : i < cols.length) :
    (buildGridGo gemTypes oracle height n cols).get? i = cols.get? i := by
  conv_rhs => rw [← buildGridGo_take gemTypes oracle height n cols]
  rw [List.get?_take hi]

theorem buildGridGo_col (gemTypes : List String) (oracle : Nat → Nat → Nat)
    (height : Nat) :
    ∀ n cols x, cols.length ≤ x → x < cols.length + n →
      (buildGridGo gemTypes oracle height n cols).get? x
        = some (buildColumn gemTypes oracle
            ((buildGridGo gemTypes oracle height n cols).take x) x height) := by
  intro n
  induction n with
  | zero => intro cols x h1 h2; omega
  | succ m ih =>
      intro cols x h1 h2
      simp only [buildGridGo]
      by_cases hx : x = cols.length
      · subst hx
        have hlt : cols.length
            < (cols ++ [buildColumn gemTypes oracle cols cols.length height]).length := by
          simp
        rw [buildGridGo_get_stable gemTypes oracle height m _ cols.length hlt]
        have htake : (buildGridGo gemTypes oracle height m
              (cols ++ [buildColumn gemTypes oracle cols cols.length height])).take
                cols.length = cols := by
          have ih2 := buildGridGo_take gemTypes oracle height m
            (cols ++ [buildColumn gemTypes oracle cols cols.length height])
          rw [List.length_append, List.length_singleton] at ih2
          have hstep : (buildGridGo gemTypes oracle height m
                (cols ++ [buildColumn gemTypes oracle cols cols.length height])).take
                  cols.length
              = ((buildGridGo gemTypes oracle height m
                (cols ++ [buildColumn gemTypes oracle cols cols.length height])).take
                  (cols.length + 1)).take cols.length := by
            rw [List.take_take]
            congr 1
            omega
          rw [hstep, ih2, List.take_left]
        rw [htake]
        exact List.get?_concat_length cols _
      · have h1b : (cols ++ [buildColumn gemTypes oracle cols cols.length height]).length
            ≤ x := by
          simp only [List.length_append, List.length_singleton]
          omega
        have h2b : x < (cols ++ [buildColumn gemTypes oracle cols cols.length height]).length
            + m := by
          simp only [List.length_append, List.length_singleton]
          omega
        exact ih _ x h1b h2b

theorem initialGrid_length (gemTypes : List String) (oracle : Nat → Nat → Nat)
    (width height : Nat) :
    (getInitialPuzzleStateWithNoMatches gemTypes oracle width height).length = width := by
  rw [getInitialPuzzleStateWithNoMatches, buildGridGo_length]
  simp

theorem initialGrid_col (gemTypes : List String) (oracle : Nat → Nat → Nat)
    (width height x : Nat) (hx : x < width) :
    (getInitialPuzzleStateWithNoMatches gemTypes oracle width height).get? x
      = some (buildColumn gemTypes oracle
          ((getInitialPuzzleStateWithNoMatches gemTypes oracle width height).take x)
          x height) := by
  rw [getInitialPuzzleStateWithNoMatches]
  exact buildGridGo_col gemTypes oracle height width [] x (Nat.zero_le x) (by simpa using hx)

theorem initialGrid_no_vert_triple (gemTypes : List String) (oracle : Nat → Nat → Nat)
    (width height : Nat) (h3 : 3 ≤ gemTypes.toFinset.card) :
    ∀ x y a,
      getGemType (getInitialPuzzleStateWithNoMatches gemTypes oracle width height) x y
        = some a →
      getGemType (getInitialPuzzleStateWithNoMatches gemTypes oracle width height) x (y + 1)
        = some a →
      getGemType (getInitialPuzzleStateWithNoMatches gemTypes oracle width height) x (y + 2)
        = some a → False := by
  intro x y a hy hy1 hy2
  cases hcol : (getInitialPuzzleStateWithNoMatches gemTypes oracle width height).get? x with
  | none => rw [getGemType, hcol] at hy; simp at hy
  | some col =>
      have hxw : x < width := by
        have := List.get?_eq_some.1 hcol
        obtain ⟨hlt, _⟩ := this
        rwa [initialGrid_length] at hlt
      have hcol2 := initialGrid_col gemTypes oracle width height x hxw
      rw [hcol] at hcol2
      injection hcol2 with hcol3
      have hcell : ∀ z, getGemType (getInitialPuzzleStateWithNoMatches
            gemTypes oracle width height) x z = some a → col.get? z = some (some a) := by
        intro z hz
        rw [getGemType, hcol] at hz
        simp only [Option.some_bind] at hz
        cases hcz : col.get? z with
        | none => rw [hcz] at hz; simp at hz
        | some cell =>
            rw [hcz] at hz
            simp only [Option.some_bind, id] at hz
            rw [hz]
      have h0 := hcell y hy
      have h1 := hcell (y + 1) hy1
      have h2 := hcell (y + 2) hy2
      rw [hcol3] at h0 h1 h2
      exact buildColumn_no_vert_triple gemTypes oracle _ x height h3 y a h0 h1 h2

theorem initialGrid_no_horiz_triple (gemTypes : List String) (oracle : Nat → Nat → Nat)
    (width height : Nat) (h3 : 3 ≤ gemTypes.toFinset.card) :
    ∀ x y a,
      getGemType (getInitialPuzzleStateWithNoMatches gemTypes oracle width height) x y
        = some a →
      getGemType (getInitialPuzzleStateWithNoMatches gemTypes oracle width height) (x + 1) y
        = some a →
      getGemType (getInitialPuzzleStateWithNoMatches gemTypes oracle width height) (x + 2) y
        = some a → False := by
  intro x y a hx0 hx1 hx2
  cases hcol : (getInitialPuzzleStateWithNoMatches gemTypes oracle width height).get?
      (x + 2) with
  | none => rw [getGemType, hcol] at hx2; simp at hx2
  | some col =>
      have hxw : x + 2 < width := by
        obtain ⟨hlt, _⟩ := List.get?_eq_some.1 hcol
        rwa [initialGrid_length] at hlt
      have hcol2 := initialGrid_col gemTypes oracle width height (x + 2) hxw
      rw [hcol] at hcol2
      injection hcol2 with hcol3
      have hcy : col.get? y = some (some a) := by
        rw [getGemType, hcol] at hx2
        simp only [Option.some_bind] at hx2
        cases hcz : col.get? y with
        | none => rw [hcz] at hx2; simp at hx2
        | some cell =>
            rw [hcz] at hx2
            simp only [Option.some_bind, id] at hx2
            rw [hx2]
      have hyh : y < height := by
        obtain ⟨hlt, _⟩ := List.get?_eq_some.1 hcy
        rw [hcol3, buildColumn_length] at hlt
        exact hlt
      have hcell := buildColumn_cell gemTypes oracle
        ((getInitialPuzzleStateWithNoMatches gemTypes oracle width height).take (x + 2))
        (x + 2) height y hyh
      rw [← hcol3] at hcell
      rw [hcy] at hcell
      have hc : a = chooseGem gemTypes
          ((getInitialPuzzleStateWithNoMatches gemTypes oracle width height).take (x + 2))
          (col.take y) (x + 2) (oracle (x + 2) y) := by
        injection hcell with h4
        injection h4
      have hacclen : (col.take y).length = y := by
        rw [List.length_take, hcol3, buildColumn_length]
        omega
      apply chooseGem_avoids_horiz gemTypes
          ((getInitialPuzzleStateWithNoMatches gemTypes oracle width height).take (x + 2))
          (col.take y) (x + 2) (oracle (x + 2) y) h3 a (by omega)
          ?h1 ?h2
      · exact hc.symm
      case h1 =>
        rw [hacclen]
        have he : x + 2 - 1 = x + 1 := by omega
        rw [he, List.get?_take (by omega : x + 1 < x + 2)]
        exact hx1
      case h2 =>
        rw [hacclen]
        have he : x + 2 - 2 = x := by omega
        rw [he, List.get?_take (by omega : x < x + 2)]
        exact hx0

theorem initialGrid_cols_length (gemTypes : List String) (oracle : Nat → Nat → Nat)
    (width height : Nat) :
    ∀ col ∈ getInitialPuzzleStateWithNoMatches gemTypes oracle width height,
      col.length = height := by
  intro col hmem
  obtain ⟨i, hi⟩ := List.mem_iff_get?.1 hmem
  have hiw : i < width := by
    obtain ⟨hlt, _⟩ := List.get?_eq_some.1 hi
    rwa [initialGrid_length] at hlt
  rw [initialGrid_col gemTypes oracle width height i hiw] at hi
  injection hi with hcol
  rw [← hcol]
  exact buildColumn_length gemTypes oracle _ i height

theorem getMatches_eq_nil_of_no_triples (width height : Nat) (g : Grid)
    (hv : ∀ x y a, getGemType g x y = some a → getGemType g x (y + 1) = some a →
      getGemType g x (y + 2) = some a → False)
    (hhz : ∀ x y a, getGemType g x y = some a → getGemType g (x + 1) y = some a →
      getGemType g (x + 2) y = some a → False) :
    getMatches width height g = [] := by
  rw [getMatches]
  split
  · rfl
  · simp only [List.append_eq_nil, List.flatMap_eq_nil_iff]
    constructor
    · intro x hx
      rw [scanLine_eq_nil (fun y => getGemType g x y) height
        (fun y a h1 h2 h3 => hv x y a h1 h2 h3) height 0]
      rfl
    · intro y hy
      rw [scanLine_eq_nil (fun x => getGemType g x y) width
        (fun x a h1 h2 h3 => hhz x y a h1 h2 h3) width 0]
      rfl

/-! ## Claim C1: freshly generated grids are match-free -/

/-- Claim C1: for every grid produced by the initial generation with width at
least 3, height at least 3 and at least 3 distinct gem types, match detection
on the freshly generated grid returns the empty list: the constrained
cell-by-cell choice never leaves a horizontal or vertical run of three. -/
theorem initial_generation_match_free (gemTypes : List String)
    (oracle : Nat → Nat → Nat) (width height : Nat)
    (hw : 3 ≤ width) (hh : 3 ≤ height) (h3 : 3 ≤ gemTypes.toFinset.card) :
    getMatches width height
      (getInitialPuzzleStateWithNoMatches gemTypes oracle width height) = [] :=
  getMatches_eq_nil_of_no_triples width height _
    (initialGrid_no_vert_triple gemTypes oracle width height h3)
    (initialGrid_no_horiz_triple gemTypes oracle width height h3)

/-- Witness for C1: three distinct gem types, a concrete constant oracle and a
3-by-3 grid. -/
theorem initial_generation_match_free_witness :
    3 ≤ (3 : Nat) ∧ 3 ≤ (["red", "green", "blue"] : List String).toFinset.card
    ∧ getMatches 3 3 (getInitialPuzzleStateWithNoMatches ["red", "green", "blue"]
        (fun _ _ => 0) 3 3) = [] :=
  ⟨by decide, by decide,
    initial_generation_match_free ["red", "green", "blue"] (fun _ _ => 0) 3 3
      (by decide) (by decide) (by decide)⟩

/-! ## Claim C6: construction never rejects -/

/-- Counterexample to claim C6: the constructor does not reject a zero width;
it succeeds and returns an engine whose grid is the empty list of columns. -/
theorem construction_accepts_zero_width :
    (mkBackendPuzzle (fun _ _ => 0) 0 5).width = 0
    ∧ (mkBackendPuzzle (fun _ _ => 0) 0 5).height = 5
    ∧ (mkBackendPuzzle (fun _ _ => 0) 0 5).puzzleState = [] := by decide

/-- Claim C6 as amended: construction is never rejected: for every width and
height (zero included) the constructor returns an engine whose grid has
exactly `width` columns of `height` cells each (so width 0 yields a grid with
no columns rather than a failure), and the fresh grid is always match-free. -/
theorem construction_never_rejects (oracle : Nat → Nat → Nat) (width height : Nat) :
    (mkBackendPuzzle oracle width height).width = width
    ∧ (mkBackendPuzzle oracle width height).height = height
    ∧ (mkBackendPuzzle oracle width height).puzzleState.length = width
    ∧ (∀ col ∈ (mkBackendPuzzle oracle width height).puzzleState, col.length = height)
    ∧ (width = 0 → (mkBackendPuzzle oracle width height).puzzleState = [])
    ∧ getMatches width height (mkBackendPuzzle oracle width height).puzzleState = [] := by
  refine ⟨rfl, rfl, initialGrid_length GEM_TYPES oracle width height,
    initialGrid_cols_length GEM_TYPES oracle width height, ?_, ?_⟩
  · intro h0
    subst h0
    exact List.length_eq_zero.1 (initialGrid_length GEM_TYPES oracle 0 height)
  · exact getMatches_eq_nil_of_no_triples width height _
      (initialGrid_no_vert_triple GEM_TYPES oracle width height (by decide))
      (initialGrid_no_horiz_triple GEM_TYPES oracle width height (by decide))

/-- Witness for C6 at concrete inputs. -/
theorem construction_never_rejects_witness :
    (mkBackendPuzzle (fun _ _ => 1) 4 4).puzzleState.length = 4
    ∧ getMatches 4 4 (mkBackendPuzzle (fun _ _ => 1) 4 4).puzzleState = [] :=
  ⟨(construction_never_rejects (fun _ _ => 1) 4 4).2.2.1,
   (construction_never_rejects (fun _ _ => 1) 4 4).2.2.2.2.2⟩

/-! ## Helper lemmas for the move rotation -/

theorem neg_emod_of_ne (a b : Int) (h : 0 < b) (hne : a % b ≠ 0) :
    (-a) % b = b - a % b := by
  have h2 := Int.emod_nonneg a (by omega : b ≠ 0)
  have h3 := Int.emod_lt_of_pos a h
  have hdecomp := Int.emod_add_ediv a b
  have key : -a = (b - a % b) + b * (-(a / b) - 1) := by linear_combination hdecomp
  rw [key, Int.add_mul_emod_self_left]
  exact Int.emod_eq_of_lt (by omega) (by omega)

theorem effAmount_zero (len : Nat) : effAmount 0 len = 0 := by
  simp [effAmount, Int.zero_tmod]

theorem list_set_self {α : Type} (l : List α) (n : Nat) (a : α)
    (h : l.get? n = some a) : l.set n a = l := by
  apply List.ext
  intro m
  by_cases hm : m = n
  · subst hm
    rw [List.get?_set_eq, h]
    rfl
  · exact List.get?_set_ne _ _ (fun hc => hm hc.symm)

theorem writeRow_get (y width : Nat) (newRow : List Cell) :
    ∀ (g : Grid) (k i : Nat),
      (writeRow y width newRow k g).get? i
        = (g.get? i).map (fun col =>
            if k + i < width then col.set y (newRow.getD (k + i) none) else col) := by
  intro g
  induction g with
  | nil => intro k i; simp [writeRow]
  | cons col rest ih =>
      intro k i
      cases i with
      | zero => simp [writeRow]
      | succ m =>
          simp only [writeRow, List.get?_cons_succ]
          rw [ih (k + 1) m]
          have harith : k + 1 + m = k + (m + 1) := by omega
          rw [harith]

theorem writeRow_length (y width : Nat) (newRow : List Cell) :
    ∀ (g : Grid) (k : Nat), (writeRow y width newRow k g).length = g.length := by
  intro g
  induction g with
  | nil => intro k; rfl
  | cons col rest ih => intro k; simp [writeRow, ih]

theorem reads_eq_rowOf (width height : Nat) (grid : Grid)
    (hW : grid.length = width) (hH : ∀ col ∈ grid, col.length = height) (idx : Nat) :
    ((List.range width).map (fun x => (grid.get? x).bind (fun col => col.get? idx))).map
      (fun r => r.getD none) = rowOf grid idx := by
  apply List.ext
  intro n
  rw [List.get?_map, List.get?_map, rowOf, List.get?_map]
  by_cases hn : n < width
  · rw [List.get?_range hn]
    have hcol : ∃ col, grid.get? n = some col :=
      ⟨_, List.get?_eq_get (by omega : n < grid.length)⟩
    obtain ⟨col, hcol⟩ := hcol
    have hcol2 : grid[n]? = some col := by rw [← List.get?_eq_getElem?]; exact hcol
    simp [hcol2]
  · have h1 : (List.range width).get? n = none := by
      rw [List.get?_eq_none, List.length_range]
      omega
    have h2 : grid.get? n = none := by
      rw [List.get?_eq_none]
      omega
    rw [h1, h2]
    rfl

theorem reads_no_none (width height : Nat) (grid : Grid)
    (hW : grid.length = width) (hH : ∀ col ∈ grid, col.length = height)
    (idx : Nat) (hidx : idx < height) :
    ((List.range width).map (fun x => (grid.get? x).bind (fun col => col.get? idx))).any
      (fun r => r.isNone) = false := by
  rw [List.any_eq_false]
  intro r hr
  obtain ⟨x, hxmem, hxr⟩ := List.mem_map.1 hr
  have hxw : x < width := List.mem_range.1 hxmem
  have hcol : ∃ col, grid.get? x = some col :=
    ⟨_, List.get?_eq_get (by omega : x < grid.length)⟩
  obtain ⟨col, hcol⟩ := hcol
  have hcl : col.length = height := hH col (List.get?_mem hcol)
  have hcell : ∃ cell, col.get? idx = some cell :=
    ⟨_, List.get?_eq_get (by omega : idx < col.length)⟩
  obtain ⟨cell, hcell⟩ := hcell
  rw [← hxr]
  have hcol2 : grid[x]? = some col := by rw [← List.get?_eq_getElem?]; exact hcol
  have hcell2 : col[idx]? = some cell := by rw [← List.get?_eq_getElem?]; exact hcell
  simp [hcol2, hcell2]

theorem writeRow_get0 (y width : Nat) (newRow : List Cell) (g : Grid) (i : Nat) :
    (writeRow y width newRow 0 g).get? i
      = (g.get? i).map (fun col =>
          if i < width then col.set y (newRow.getD i none) else col) := by
  rw [writeRow_get]
  simp only [Nat.zero_add]

theorem writeRow_cols_length (width height : Nat) (grid : Grid) (idx : Nat)
    (newRow : List Cell) (hH : ∀ col ∈ grid, col.length = height) :
    ∀ col ∈ writeRow idx width newRow 0 grid, col.length = height := by
  intro col hmem
  obtain ⟨i, hi⟩ := List.mem_iff_get?.1 hmem
  rw [writeRow_get0] at hi
  cases hcol : grid.get? i with
  | none => rw [hcol] at hi; simp at hi
  | some colI =>
      rw [hcol] at hi
      simp only [Option.map_some'] at hi
      injection hi with hi2
      have hlen : colI.length = height := hH colI (List.get?_mem hcol)
      rw [← hi2]
      split
      · rw [List.length_set]
        exact hlen
      · exact hlen

theorem rowOf_writeRow (width height : Nat) (grid : Grid) (idx : Nat)
    (newRow : List Cell) (hW : grid.length = width)
    (hH : ∀ col ∈ grid, col.length = height)
    (hidx : idx < height) (hlen : newRow.length = width) :
    rowOf (writeRow idx width newRow 0 grid) idx = newRow := by
  apply List.ext
  intro n
  rw [rowOf, List.get?_map, writeRow_get0]
  by_cases hn : n < width
  · have hcol : ∃ col, grid.get? n = some col :=
      ⟨_, List.get?_eq_get (by omega : n < grid.length)⟩
    obtain ⟨col, hcol⟩ := hcol
    rw [hcol]
    simp only [Option.map_some', if_pos hn]
    have hcl : col.length = height := hH col (List.get?_mem hcol)
    have hset : (col.set idx (newRow.getD n none)).get? idx
        = some (newRow.getD n none) := by
      rw [List.get?_set_eq]
      rw [List.get?_eq_get (by omega : idx < col.length)]
      rfl
    rw [hset]
    rw [List.getD_eq_get?]
    cases hnr : newRow.get? n with
    | none =>
        rw [List.get?_eq_none] at hnr
        omega
    | some c => rfl
  · have h2 : grid.get? n = none := by
      rw [List.get?_eq_none]
      omega
    have h3 : newRow.get? n = none := by
      rw [List.get?_eq_none]
      omega
    rw [h2, h3]
    rfl

theorem getGemType_writeRow_ne (width : Nat) (grid : Grid) (idx : Nat)
    (newRow : List Cell) (x y2 : Nat) (hne : y2 ≠ idx) :
    getGemType (writeRow idx width newRow 0 grid) x y2 = getGemType grid x y2 := by
  rw [getGemType, getGemType, writeRow_get0]
  cases hcol : grid.get? x with
  | none => rfl
  | some col =>
      simp only [Option.map_some', Option.some_bind]
      split
      · rw [List.get?_set_ne _ _ (fun hc => hne hc.symm)]
      · rfl

theorem writeRow_restore (width height : Nat) (grid : Grid) (idx : Nat)
    (newRow : List Cell) (hW : grid.length = width)
    (hH : ∀ col ∈ grid, col.length = height) (hidx : idx < height) :
    writeRow idx width (rowOf grid idx) 0 (writeRow idx width newRow 0 grid) = grid := by
  apply List.ext
  intro n
  rw [writeRow_get0, writeRow_get0]
  cases hcol : grid.get? n with
  | none => rfl
  | some col =>
      simp only [Option.map_some']
      by_cases hn : n < width
      · rw [if_pos hn, if_pos hn, List.set_set]
        have hcl : col.length = height := hH col (List.get?_mem hcol)
        have hcell : ∃ c, col.get? idx = some c :=
          ⟨_, List.get?_eq_get (by omega : idx < col.length)⟩
        obtain ⟨c, hcell⟩ := hcell
        have hrow : (rowOf grid idx).getD n none = c := by
          rw [rowOf, List.getD_eq_get?, List.get?_map, hcol]
          simp only [Option.map_some']
          rw [hcell]
          rfl
        rw [hrow, list_set_self col idx c hcell]
      · rw [if_neg hn, if_neg hn]

theorem applyRow_in_range (width height : Nat) (grid : Grid)
    (hW : grid.length = width) (hH : ∀ col ∈ grid, col.length = height)
    (idx : Nat) (hidx : idx < height) (amount : Int)
    (he : effAmount amount width ≠ 0) :
    applyMoveToGrid width height grid ⟨RowOrCol.row, (idx : Int), amount⟩
      = writeRow idx width
          ((rowOf grid idx).drop (width - (effAmount amount width).toNat)
            ++ (rowOf grid idx).take (width - (effAmount amount width).toNat)) 0 grid := by
  have h0 : amount ≠ 0 := by
    intro h0
    rw [h0] at he
    exact he (effAmount_zero width)
  simp only [applyMoveToGrid, if_neg h0]
  rw [if_neg he]
  rw [if_neg (show ¬((idx : Int) < 0 ∨ (height : Int) ≤ (idx : Int)) from by
    push_neg
    exact ⟨Int.natCast_nonneg idx, by exact_mod_cast hidx⟩)]
  rw [Int.toNat_natCast]
  rw [if_neg (show ¬(((List.range width).map
      (fun x => (grid.get? x).bind (fun col => col.get? idx))).any
        (fun r => r.isNone) = true) from by
    rw [reads_no_none width height grid hW hH idx hidx]
    exact Bool.false_ne_true)]
  rw [reads_eq_rowOf width height grid hW hH idx]

theorem applyCol_in_range (width height : Nat) (grid : Grid)
    (hW : grid.length = width)
    (idx : Nat) (hidx : idx < width) (amount : Int)
    (he : effAmount amount height ≠ 0) :
    applyMoveToGrid width height grid ⟨RowOrCol.col, (idx : Int), amount⟩
      = grid.set idx
          ((grid.getD idx []).drop (height - (effAmount amount height).toNat)
            ++ (grid.getD idx []).take (height - (effAmount amount height).toNat)) := by
  have h0 : amount ≠ 0 := by
    intro h0
    rw [h0] at he
    exact he (effAmount_zero height)
  have hcol : ∃ col, grid.get? idx = some col :=
    ⟨_, List.get?_eq_get (by omega : idx < grid.length)⟩
  obtain ⟨col, hcol⟩ := hcol
  simp only [applyMoveToGrid, if_neg h0]
  rw [if_neg he]
  rw [Int.toNat_natCast]
  rw [if_neg (show ¬((idx : Int) < 0 ∨ (width : Int) ≤ (idx : Int)
      ∨ (grid.get? idx).isNone = true) from by
    push_neg
    refine ⟨Int.natCast_nonneg idx, by exact_mod_cast hidx, ?_⟩
    rw [hcol]
    simp)]

theorem applyMove_noop_of_eff_zero (width height : Nat) (grid : Grid)
    (m : MoveAction)
    (he : effAmount m.amount (match m.rowOrCol with
      | RowOrCol.row => width
      | RowOrCol.col => height) = 0) :
    applyMoveToGrid width height grid m = grid := by
  obtain ⟨mrc, midx, mamt⟩ := m
  by_cases h0 : mamt = 0
  · simp [applyMoveToGrid, h0]
  · cases mrc with
    | row =>
        simp only [applyMoveToGrid, if_neg h0]
        rw [if_pos (by exact he)]
    | col =>
        simp only [applyMoveToGrid, if_neg h0]
        rw [if_pos (by exact he)]

theorem rotateRight_zero {α : Type} (l : List α) : rotateRight l 0 = l := by
  rw [rotateRight, Nat.zero_mod, Nat.sub_zero, List.rotate_length]

theorem rotateRight_eq_rotate {α : Type} (l : List α) (e : Nat) (he : e < l.length) :
    rotateRight l e = l.rotate (l.length - e) := by
  rw [rotateRight, Nat.mod_eq_of_lt he]

theorem rowOf_length (grid : Grid) (y : Nat) : (rowOf grid y).length = grid.length := by
  rw [rowOf, List.length_map]

/-! ## Claim C3: moves rotate one line cyclically -/

/-- Claim C3: on a well-formed grid, a row move with in-range index rotates
that row cyclically by `amount mod width` (positive amounts rightward), a
column move with in-range index rotates that column cyclically by
`amount mod height` (positive amounts downward), all other lines are left
unchanged, and applying the move with the negated amount afterwards restores
the grid exactly. -/
theorem applyMoveToGrid_rotates (width height : Nat) (grid : Grid)
    (hW : grid.length = width) (hH : ∀ col ∈ grid, col.length = height)
    (hw0 : 0 < width) (hh0 : 0 < height) :
    (∀ (idx : Nat) (amount : Int), idx < height →
      (rowOf (applyMoveToGrid width height grid ⟨RowOrCol.row, (idx : Int), amount⟩) idx
          = rotateRight (rowOf grid idx) ((amount % (width : Int)).toNat))
      ∧ (∀ x y2, y2 ≠ idx →
          getGemType (applyMoveToGrid width height grid
              ⟨RowOrCol.row, (idx : Int), amount⟩) x y2
            = getGemType grid x y2)
      ∧ applyMoveToGrid width height
          (applyMoveToGrid width height grid ⟨RowOrCol.row, (idx : Int), amount⟩)
          ⟨RowOrCol.row, (idx : Int), -amount⟩ = grid)
    ∧ (∀ (idx : Nat) (amount : Int), idx < width →
      ((applyMoveToGrid width height grid ⟨RowOrCol.col, (idx : Int), amount⟩).get? idx
          = some (rotateRight ((grid.get? idx).getD [])
              ((amount % (height : Int)).toNat)))
      ∧ (∀ x, x ≠ idx →
          (applyMoveToGrid width height grid ⟨RowOrCol.col, (idx : Int), amount⟩).get? x
            = grid.get? x)
      ∧ applyMoveToGrid width height
          (applyMoveToGrid width height grid ⟨RowOrCol.col, (idx : Int), amount⟩)
          ⟨RowOrCol.col, (idx : Int), -amount⟩ = grid) := by
  constructor
  · -- row moves
    intro idx amount hidx
    have heq : effAmount amount width = amount % (width : Int) :=
      effAmount_eq_emod amount width hw0
    obtain ⟨hge, hlt⟩ := effAmount_nonneg_lt amount width hw0
    have hrowlen : (rowOf grid idx).length = width := by rw [rowOf_length, hW]
    by_cases he : effAmount amount width = 0
    · have hz : (amount % (width : Int)).toNat = 0 := by
        rw [← heq, he]
        rfl
      have hnoop := applyMove_noop_of_eff_zero width height grid
        ⟨RowOrCol.row, (idx : Int), amount⟩ he
      have hdvd : (width : Int) ∣ amount := by
        rw [heq] at he
        exact Int.dvd_of_emod_eq_zero he
      have he2 : effAmount (-amount) width = 0 := by
        rw [effAmount_eq_emod (-amount) width hw0]
        exact Int.emod_eq_zero_of_dvd hdvd.neg_right
      have hnoop2 := applyMove_noop_of_eff_zero width height grid
        ⟨RowOrCol.row, (idx : Int), -amount⟩ he2
      rw [hnoop, hz, rotateRight_zero]
      exact ⟨rfl, fun x y2 _ => rfl, hnoop2⟩
    · set e := effAmount amount width with hedef
      have hent : 1 ≤ e.toNat ∧ e.toNat < width := by omega
      set k := width - e.toNat with hkdef
      have happly := applyRow_in_range width height grid hW hH idx hidx amount he
      have hnewlen : ((rowOf grid idx).drop k ++ (rowOf grid idx).take k).length
          = width := by
        rw [List.length_append, List.length_drop, List.length_take, hrowlen]
        omega
      have hrot : (rowOf grid idx).drop k ++ (rowOf grid idx).take k
          = (rowOf grid idx).rotate k := by
        rw [List.rotate_eq_drop_append_take
          (show k ≤ (rowOf grid idx).length from by rw [hrowlen]; omega)]
      refine ⟨?_, ?_, ?_⟩
      · rw [happly]
        rw [rowOf_writeRow width height grid idx _ hW hH hidx hnewlen]
        rw [← heq, rotateRight_eq_rotate _ _
          (show (effAmount amount width).toNat < (rowOf grid idx).length from by
            rw [hrowlen]; omega), hrowlen]
        exact hrot
      · intro x y2 hne
        rw [happly]
        exact getGemType_writeRow_ne width grid idx _ x y2 hne
      · have hmodne : amount % (width : Int) ≠ 0 := by
          rw [← heq]
          exact he
        have he2 : effAmount (-amount) width = (width : Int) - e := by
          rw [effAmount_eq_emod (-amount) width hw0,
            neg_emod_of_ne amount (width : Int) (by exact_mod_cast hw0) hmodne, heq]
        have he2ne : effAmount (-amount) width ≠ 0 := by
          rw [he2]
          omega
        have hW2 : (writeRow idx width
            ((rowOf grid idx).drop k ++ (rowOf grid idx).take k) 0 grid).length
              = width := by
          rw [writeRow_length, hW]
        have hH2 := writeRow_cols_length width height grid idx
          ((rowOf grid idx).drop k ++ (rowOf grid idx).take k) hH
        have happly2 := applyRow_in_range width height _ hW2 hH2 idx hidx (-amount) he2ne
        rw [happly, happly2]
        have hrowOf2 := rowOf_writeRow width height grid idx
          ((rowOf grid idx).drop k ++ (rowOf grid idx).take k) hW hH hidx hnewlen
        rw [hrowOf2]
        have hk2 : width - (effAmount (-amount) width).toNat = e.toNat := by
          omega
        rw [hk2]
        have hcomb : ((rowOf grid idx).drop k ++ (rowOf grid idx).take k).drop e.toNat
              ++ ((rowOf grid idx).drop k ++ (rowOf grid idx).take k).take e.toNat
            = rowOf grid idx := by
          rw [hrot, ← List.rotate_eq_drop_append_take
            (show e.toNat ≤ ((rowOf grid idx).rotate k).length from by
              rw [List.length_rotate, hrowlen]; omega)]
          rw [List.rotate_rotate]
          have hsum : k + e.toNat = (rowOf grid idx).length := by
            rw [hrowlen]; omega
          rw [hsum, List.rotate_length]
        rw [hcomb]
        exact writeRow_restore width height grid idx _ hW hH hidx
  · -- column moves
    intro idx amount hidx
    have heq : effAmount amount height = amount % (height : Int) :=
      effAmount_eq_emod amount height hh0
    obtain ⟨hge, hlt⟩ := effAmount_nonneg_lt amount height hh0
    have hcol : ∃ col, grid.get? idx = some col :=
      ⟨_, List.get?_eq_get (by omega : idx < grid.length)⟩
    obtain ⟨col, hcolget⟩ := hcol
    have hcollen : col.length = height := hH col (List.get?_mem hcolget)
    have hgetD : (grid.get? idx).getD [] = col := by rw [hcolget]; rfl
    have hgetDL : grid.getD idx [] = col := by
      rw [List.getD_eq_get?, hcolget]
      rfl
    by_cases he : effAmount amount height = 0
    · have hz : (amount % (height : Int)).toNat = 0 := by
        rw [← heq, he]
        rfl
      have hnoop := applyMove_noop_of_eff_zero width height grid
        ⟨RowOrCol.col, (idx : Int), amount⟩ he
      have hdvd : (height : Int) ∣ amount := by
        rw [heq] at he
        exact Int.dvd_of_emod_eq_zero he
      have he2 : effAmount (-amount) height = 0 := by
        rw [effAmount_eq_emod (-amount) height hh0]
        exact Int.emod_eq_zero_of_dvd hdvd.neg_right
      have hnoop2 := applyMove_noop_of_eff_zero width height grid
        ⟨RowOrCol.col, (idx : Int), -amount⟩ he2
      rw [hnoop, hz, rotateRight_zero, hgetD]
      exact ⟨hcolget, fun x _ => rfl, hnoop2⟩
    · set e := effAmount amount height with hedef
      set k := height - e.toNat with hkdef
      have happly := applyCol_in_range width height grid hW idx hidx amount he
      rw [hgetDL] at happly
      have hrot : col.drop k ++ col.take k = col.rotate k := by
        rw [List.rotate_eq_drop_append_take
          (show k ≤ col.length from by rw [hcollen]; omega)]
      refine ⟨?_, ?_, ?_⟩
      · rw [happly]
        have hsetget : (grid.set idx (col.drop k ++ col.take k)).get? idx
            = some (col.drop k ++ col.take k) := by
          rw [List.get?_set_eq, hcolget]
          rfl
        rw [hsetget, hgetD]
        rw [← heq, rotateRight_eq_rotate _ _
          (show e.toNat < col.length from by rw [hcollen]; omega), hcollen]
        exact congrArg some hrot
      · intro x hx
        rw [happly]
        exact List.get?_set_ne _ _ (fun hc => hx hc.symm)
      · have hmodne : amount % (height : Int) ≠ 0 := by
          rw [← heq]
          exact he
        have he2 : effAmount (-amount) height = (height : Int) - e := by
          rw [effAmount_eq_emod (-amount) height hh0,
            neg_emod_of_ne amount (height : Int) (by exact_mod_cast hh0) hmodne, heq]
        have he2ne : effAmount (-amount) height ≠ 0 := by
          rw [he2]
          omega
        have hW2 : (grid.set idx (col.drop k ++ col.take k)).length = width := by
          rw [List.length_set, hW]
        have happly2 := applyCol_in_range width height
          (grid.set idx (col.drop k ++ col.take k)) hW2 idx hidx (-amount) he2ne
        have hget2 : (grid.set idx (col.drop k ++ col.take k)).getD idx []
            = col.drop k ++ col.take k := by
          rw [List.getD_eq_get?, List.get?_set_eq, hcolget]
          rfl
        rw [happly, happly2, hget2]
        have hk2 : height - (effAmount (-amount) height).toNat = e.toNat := by omega
        rw [hk2]
        have hcomb : (col.drop k ++ col.take k).drop e.toNat
              ++ (col.drop k ++ col.take k).take e.toNat = col := by
          rw [hrot, ← List.rotate_eq_drop_append_take
            (show e.toNat ≤ (col.rotate k).length from by
              rw [List.length_rotate, hcollen]; omega)]
          rw [List.rotate_rotate]
          have hsum : k + e.toNat = col.length := by
            rw [hcollen]
            omega
          rw [hsum, List.rotate_length]
        rw [hcomb, List.set_set]
        exact list_set_self grid idx col hcolget

/-- Witness for C3: the spec wraparound example: shifting the row A B C D E by
2 yields D E A B C, and shifting back by -2 restores the grid. -/
theorem applyMoveToGrid_rotates_witness :
    rowOf (applyMoveToGrid 5 1
        [[some "A"], [some "B"], [some "C"], [some "D"], [some "E"]]
        ⟨RowOrCol.row, 0, 2⟩) 0
      = [some "D", some "E", some "A", some "B", some "C"]
    ∧ applyMoveToGrid 5 1
        (applyMoveToGrid 5 1
          [[some "A"], [some "B"], [some "C"], [some "D"], [some "E"]]
          ⟨RowOrCol.row, 0, 2⟩)
        ⟨RowOrCol.row, 0, -2⟩
      = [[some "A"], [some "B"], [some "C"], [some "D"], [some "E"]] := by
  have h := (applyMoveToGrid_rotates 5 1
      [[some "A"], [some "B"], [some "C"], [some "D"], [some "E"]]
      (by decide) (by decide) (by decide) (by decide)).1 0 2 (by decide)
  exact ⟨h.1.trans (by decide), h.2.2⟩

/-! ## Helper lemmas for the phase commit -/

theorem getNextGemToSpawnType_state (st : BackendPuzzle) (r : Nat × Nat) :
    (getNextGemToSpawnType st r).2
      = { st with nextGemsToSpawn := st.nextGemsToSpawn.tail } := by
  obtain ⟨w, h, q, ps, hi⟩ := st
  cases q with
  | cons g rest => rfl
  | nil =>
      cases hi with
      | none => rfl
      | some hs =>
          simp only [getNextGemToSpawnType]
          by_cases h1 : 0 < hs.length
          · rw [if_pos h1]
            cases hlk : HABITAT_GEM_MAP.lookup (hs.getD (r.1 % hs.length) 0) with
            | none => rfl
            | some mapped =>
                dsimp only
                by_cases h2 : mapped ≠ "" ∧ mapped ∈ GEM_TYPES
                · rw [if_pos h2]
                  rfl
                · rw [if_neg h2]
                  rfl
          · rw [if_neg h1]
            rfl

theorem genSpawnTypes_fst_length (rng : Nat → Nat × Nat) :
    ∀ n k st, (genSpawnTypes rng k n st).1.length = n := by
  intro n
  induction n with
  | zero => intro k st; rfl
  | succ m ih =>
      intro k st
      simp only [genSpawnTypes, List.length_cons]
      rw [ih]

theorem genSpawnTypes_state (rng : Nat → Nat × Nat) :
    ∀ n k st, (genSpawnTypes rng k n st).2.width = st.width
      ∧ (genSpawnTypes rng k n st).2.height = st.height
      ∧ (genSpawnTypes rng k n st).2.puzzleState = st.puzzleState := by
  intro n
  induction n with
  | zero => intro k st; exact ⟨rfl, rfl, rfl⟩
  | succ m ih =>
      intro k st
      simp only [genSpawnTypes]
      rw [getNextGemToSpawnType_state st (rng k)]
      have h1 := ih (k + 1) { st with nextGemsToSpawn := st.nextGemsToSpawn.tail }
      exact ⟨h1.1, h1.2.1, h1.2.2⟩

theorem genReplacements_state (rng : Nat → Nat × Nat) (counts : Nat → Nat) :
    ∀ xs k st, (genReplacements rng counts xs k st).2.width = st.width
      ∧ (genReplacements rng counts xs k st).2.height = st.height
      ∧ (genReplacements rng counts xs k st).2.puzzleState = st.puzzleState := by
  intro xs
  induction xs with
  | nil => intro k st; exact ⟨rfl, rfl, rfl⟩
  | cons x rest ih =>
      intro k st
      simp only [genReplacements]
      by_cases hc : 0 < counts x
      · rw [if_pos hc]
        have h1 := ih (k + counts x) (genSpawnTypes rng k (counts x) st).2
        have h2 := genSpawnTypes_state rng (counts x) k st
        exact ⟨h1.1.trans h2.1, h1.2.1.trans h2.2.1, h1.2.2.trans h2.2.2⟩
      · rw [if_neg hc]
        exact ih k st

theorem genReplacements_keys (rng : Nat → Nat × Nat) (counts : Nat → Nat) :
    ∀ xs k st p, p ∈ (genReplacements rng counts xs k st).1 →
      p.1 ∈ xs ∧ 0 < counts p.1 := by
  intro xs
  induction xs with
  | nil => intro k st p hp; simp [genReplacements] at hp
  | cons x rest ih =>
      intro k st p hp
      simp only [genReplacements] at hp
      by_cases hc : 0 < counts x
      · rw [if_pos hc] at hp
        rcases List.mem_cons.1 hp with rfl | hp2
        · exact ⟨List.mem_cons_self x rest, hc⟩
        · have := ih _ _ p hp2
          exact ⟨List.mem_cons_of_mem x this.1, this.2⟩
      · rw [if_neg hc] at hp
        have := ih _ _ p hp
        exact ⟨List.mem_cons_of_mem x this.1, this.2⟩

theorem lookup_eq_none_of_no_key (R : List (Nat × List String)) (x : Nat)
    (h : ∀ p ∈ R, p.1 ≠ x) : R.lookup x = none := by
  induction R with
  | nil => rfl
  | cons p rest ih =>
      simp only [List.lookup]
      have hne : p.1 ≠ x := h p (List.mem_cons_self p rest)
      have hb : (x == p.1) = false := beq_eq_false_iff_ne.mpr (fun hc => hne hc.symm)
      rw [hb]
      exact ih (fun q hq => h q (List.mem_cons_of_mem p hq))

theorem genReplacements_lookup (rng : Nat → Nat × Nat) (counts : Nat → Nat) :
    ∀ xs k st x, xs.Nodup → x ∈ xs → 0 < counts x →
      ∃ ts, (genReplacements rng counts xs k st).1.lookup x = some ts
        ∧ ts.length = counts x := by
  intro xs
  induction xs with
  | nil => intro k st x _ hx; simp at hx
  | cons x0 rest ih =>
      intro k st x hnd hx hcx
      simp only [genReplacements]
      rcases List.mem_cons.1 hx with rfl | hx2
      · rw [if_pos hcx]
        refine ⟨(genSpawnTypes rng k (counts x) st).1, ?_, genSpawnTypes_fst_length rng _ _ _⟩
        simp [List.lookup]
      · have hne : x0 ≠ x := by
          intro hc
          subst hc
          exact (List.nodup_cons.1 hnd).1 hx2
        by_cases hc0 : 0 < counts x0
        · rw [if_pos hc0]
          obtain ⟨ts, hts, htl⟩ := ih _ _ x (List.nodup_cons.1 hnd).2 hx2 hcx
          refine ⟨ts, ?_, htl⟩
          simp only [List.lookup]
          have hb : (x == x0) = false := beq_eq_false_iff_ne.mpr (fun hc => hne hc.symm)
          rw [hb]
          exact hts
        · rw [if_neg hc0]
          exact ih _ _ x (List.nodup_cons.1 hnd).2 hx2 hcx

theorem genReplacements_lookup_none (rng : Nat → Nat × Nat) (counts : Nat → Nat)
    (xs : List Nat) (k : Nat) (st : BackendPuzzle) (x : Nat) (hcx : counts x = 0) :
    (genReplacements rng counts xs k st).1.lookup x = none := by
  apply lookup_eq_none_of_no_key
  intro p hp hc
  have := (genReplacements_keys rng counts xs k st p hp).2
  rw [hc, hcx] at this
  omega

theorem getMatches_coords (width height : Nat) (grid : Grid) :
    ∀ mt ∈ getMatches width height grid, ∀ c ∈ mt, c.1 < width ∧ c.2 < height := by
  intro mt hmt c hc
  rw [getMatches] at hmt
  split at hmt
  · simp at hmt
  · rcases List.mem_append.1 hmt with hv | hh
    · obtain ⟨x, hxmem, hmt2⟩ := List.mem_flatMap.1 hv
      obtain ⟨p, hpmem, hmt3⟩ := List.mem_map.1 hmt2
      have hp := scanLine_mem (fun y => getGemType grid x y) height height 0 p hpmem
      rw [← hmt3] at hc
      obtain ⟨i, himem, hci⟩ := List.mem_map.1 hc
      have hi := List.mem_range.1 himem
      rw [← hci]
      exact ⟨List.mem_range.1 hxmem, by omega⟩
    · obtain ⟨y, hymem, hmt2⟩ := List.mem_flatMap.1 hh
      obtain ⟨p, hpmem, hmt3⟩ := List.mem_map.1 hmt2
      have hp := scanLine_mem (fun x => getGemType grid x y) width width 0 p hpmem
      rw [← hmt3] at hc
      obtain ⟨i, himem, hci⟩ := List.mem_map.1 hc
      have hi := List.mem_range.1 himem
      rw [← hci]
      exact ⟨by omega, List.mem_range.1 hymem⟩

theorem enumFrom_filter_fst_length {α : Type} (q : Nat → Bool) :
    ∀ (l : List α) (n : Nat),
      ((List.enumFrom n l).filter (fun p => q p.1)).length
        = ((List.range' n l.length).filter q).length := by
  intro l
  induction l with
  | nil => intro n; rfl
  | cons a rest ih =>
      intro n
      show ((⟨n, a⟩ :: List.enumFrom (n + 1) rest).filter (fun p => q p.1)).length
        = ((List.range' n (rest.length + 1)).filter q).length
      rw [List.range'_succ]
      simp only [List.filter_cons]
      cases hq : q n with
      | true => simp [hq, ih (n + 1)]
      | false => simp [hq, ih (n + 1)]

theorem length_filter_add_length_filter_not {α : Type} (l : List α) (p : α → Bool) :
    (l.filter p).length + (l.filter (fun a => !(p a))).length = l.length := by
  induction l with
  | nil => rfl
  | cons a rest ih =>
      simp only [List.filter_cons]
      cases hp : p a with
      | true =>
          simp only [hp, Bool.not_true, if_true, if_false, List.length_cons]
          simp only [Bool.false_eq_true, if_false, List.length_cons]
          omega
      | false =>
          simp only [hp, Bool.not_false, List.length_cons]
          simp only [Bool.false_eq_true, if_false, if_true, List.length_cons]
          omega

theorem range_filter_mem_length (S : List (Nat × Nat)) (x H : Nat) (hnd : S.Nodup)
    (hbound : ∀ c ∈ S, c.1 = x → c.2 < H) :
    ((List.range H).filter (fun y => decide ((x, y) ∈ S))).length
      = (S.filter (fun c => c.1 == x)).length := by
  have hnodupL : ((List.range H).filter (fun y => decide ((x, y) ∈ S))).Nodup :=
    (List.nodup_range H).filter _
  have hnodupR : (S.filter (fun c => c.1 == x)).Nodup := hnd.filter _
  rw [← List.toFinset_card_of_nodup hnodupL, ← List.toFinset_card_of_nodup hnodupR]
  apply Finset.card_bij (fun y _ => (x, y))
  · intro y hy
    rw [List.mem_toFinset, List.mem_filter] at hy
    rw [List.mem_toFinset, List.mem_filter]
    refine ⟨of_decide_eq_true hy.2, ?_⟩
    simp
  · intro y1 hy1 y2 hy2 heq
    injection heq
  · intro c hc
    rw [List.mem_toFinset, List.mem_filter] at hc
    have hcx : c.1 = x := by
      have := hc.2
      simpa using this
    refine ⟨c.2, ?_, ?_⟩
    · rw [List.mem_toFinset, List.mem_filter, List.mem_range]
      refine ⟨hbound c hc.1 hcx, decide_eq_true ?_⟩
      rw [show (x, c.2) = c from by rw [← hcx]]
      exact hc.1
    · rw [← hcx]

theorem applyMoveToGrid_wf (width height : Nat) (grid : Grid) (m : MoveAction)
    (hW : grid.length = width) (hH : ∀ col ∈ grid, col.length = height) :
    (applyMoveToGrid width height grid m).length = width
    ∧ ∀ col ∈ applyMoveToGrid width height grid m, col.length = height := by
  obtain ⟨mrc, midx, mamt⟩ := m
  by_cases h0 : mamt = 0
  · simp only [applyMoveToGrid, if_pos h0]
    exact ⟨hW, hH⟩
  · cases mrc with
    | row =>
        simp only [applyMoveToGrid, if_neg h0]
        split
        · exact ⟨hW, hH⟩
        · split
          · exact ⟨hW, hH⟩
          · split
            · exact ⟨hW, hH⟩
            · exact ⟨(writeRow_length _ _ _ _ _).trans hW,
                writeRow_cols_length width height grid _ _ hH⟩
    | col =>
        simp only [applyMoveToGrid, if_neg h0]
        split
        · exact ⟨hW, hH⟩
        · split
          · exact ⟨hW, hH⟩
          · rename_i hguard
            constructor
            · rw [List.length_set]
              exact hW
            · intro col hcol
              rcases List.mem_or_eq_of_mem_set hcol with hmem | heq
              · exact hH col hmem
              · cases hg : grid.get? midx.toNat with
                | none =>
                    exfalso
                    apply hguard
                    right
                    right
                    rw [hg]
                    rfl
                | some col0 =>
                    have hlen0 : col0.length = height := hH col0 (List.get?_mem hg)
                    have hgd : grid.getD midx.toNat [] = col0 := by
                      rw [List.getD_eq_get?, hg]
                      rfl
                    rw [heq, hgd]
                    rw [List.length_append, List.length_drop, List.length_take]
                    omega

theorem foldl_moves_wf (width height : Nat) :
    ∀ (actions : List MoveAction) (grid : Grid),
      grid.length = width → (∀ col ∈ grid, col.length = height) →
      (actions.foldl (fun g a => applyMoveToGrid width height g a) grid).length = width
      ∧ ∀ col ∈ actions.foldl (fun g a => applyMoveToGrid width height g a) grid,
          col.length = height := by
  intro actions
  induction actions with
  | nil => intro grid hW hH; exact ⟨hW, hH⟩
  | cons a rest ih =>
      intro grid hW hH
      simp only [List.foldl_cons]
      have h := applyMoveToGrid_wf width height grid a hW hH
      exact ih _ h.1 h.2

theorem applyExplode_columns (st2 : BackendPuzzle) (ms : List (List (Nat × Nat)))
    (R : List (Nat × List String))
    (hW : st2.puzzleState.length = st2.width)
    (hH : ∀ col ∈ st2.puzzleState, col.length = st2.height)
    (hms : ms ≠ [])
    (hcoords : ∀ mt ∈ ms, ∀ c ∈ mt, c.1 < st2.width ∧ c.2 < st2.height)
    (hlookup : ∀ x, x < st2.width → ((R.lookup x).getD []).length
        = (ms.flatten.dedup.filter (fun c => c.1 == x)).length) :
    (applyExplodeAndReplacePhase st2 ⟨ms, R⟩).puzzleState.length = st2.width
    ∧ ∀ x, x < st2.width →
        (applyExplodeAndReplacePhase st2 ⟨ms, R⟩).puzzleState.get? x
          = some (((R.lookup x).getD []).map some
              ++ (((st2.puzzleState.get? x).getD []).enum.filter
                  (fun p => decide ((x, p.1) ∉ ms.flatten.dedup))).map Prod.snd)
        ∧ ((applyExplodeAndReplacePhase st2 ⟨ms, R⟩).puzzleState.getD x []).length
            = st2.height := by
  have hnothing : ExplodeAndReplacePhase.isNothingToDo ⟨ms, R⟩ = false := by
    rw [ExplodeAndReplacePhase.isNothingToDo]
    simpa [List.isEmpty_iff] using hms
  have happly : (applyExplodeAndReplacePhase st2 ⟨ms, R⟩).puzzleState
      = (List.range st2.width).map (fun x =>
          let currentColumn := (st2.puzzleState.get? x).getD []
          let survivingGems := (currentColumn.enum.filter
              (fun p => decide ((x, p.1) ∉ ms.flatten.dedup))).map Prod.snd
          let newGemTypes := (R.lookup x).getD []
          let newGems : List Cell := newGemTypes.map some
          let col0 := newGems ++ survivingGems
          if col0.length = st2.height then col0
          else if col0.length < st2.height then
            col0 ++ List.replicate (st2.height - col0.length) (none : Cell)
          else col0.take st2.height) := by
    rw [applyExplodeAndReplacePhase, if_neg (by rw [hnothing]; exact Bool.false_ne_true)]
  have hbody : ∀ x, x < st2.width →
      (((R.lookup x).getD []).map some
          ++ (((st2.puzzleState.get? x).getD []).enum.filter
            (fun p => decide ((x, p.1) ∉ ms.flatten.dedup))).map Prod.snd).length
        = st2.height := by
    intro x hx
    have hcolx : ∃ colx, st2.puzzleState.get? x = some colx :=
      ⟨_, List.get?_eq_get (by omega : x < st2.puzzleState.length)⟩
    obtain ⟨colx, hcolx⟩ := hcolx
    have hcollen : colx.length = st2.height := hH colx (List.get?_mem hcolx)
    have hbound : ∀ c ∈ ms.flatten.dedup, c.1 = x → c.2 < st2.height := by
      intro c hc _
      have hc2 : c ∈ ms.flatten := List.dedup_subset _ hc
      obtain ⟨mt, hmt, hcmt⟩ := List.mem_flatten.1 hc2
      exact (hcoords mt hmt c hcmt).2
    have hsurv : ((((st2.puzzleState.get? x).getD []).enum.filter
          (fun p => decide ((x, p.1) ∉ ms.flatten.dedup))).map Prod.snd).length
        = st2.height
          - (ms.flatten.dedup.filter (fun c => c.1 == x)).length := by
      rw [List.length_map, hcolx]
      show ((colx.enum.filter (fun p => decide ((x, p.1) ∉ ms.flatten.dedup))).length) = _
      rw [List.enum_eq_enumFrom]
      rw [enumFrom_filter_fst_length (fun y => decide ((x, y) ∉ ms.flatten.dedup)) colx 0]
      have hpart := length_filter_add_length_filter_not (List.range' 0 colx.length)
        (fun y => decide ((x, y) ∈ ms.flatten.dedup))
      have hnot : (List.range' 0 colx.length).filter
            (fun y => decide ((x, y) ∉ ms.flatten.dedup))
          = (List.range' 0 colx.length).filter
            (fun y => !(decide ((x, y) ∈ ms.flatten.dedup))) := by
        simp only [decide_not]
      rw [hnot]
      have hcnt : ((List.range' 0 colx.length).filter
            (fun y => decide ((x, y) ∈ ms.flatten.dedup))).length
          = (ms.flatten.dedup.filter (fun c => c.1 == x)).length := by
        rw [← List.range_eq_range']
        exact range_filter_mem_length (ms.flatten.dedup) x colx.length
          (List.nodup_dedup _) (fun c hc hcx => hcollen ▸ hbound c hc hcx)
      have hrl : (List.range' 0 colx.length).length = colx.length := by
        rw [← List.range_eq_range', List.length_range]
      rw [← hcollen]
      omega
    have hcap : (ms.flatten.dedup.filter (fun c => c.1 == x)).length ≤ st2.height := by
      have h1 : (ms.flatten.dedup.filter (fun c => c.1 == x)).length
          = ((List.range colx.length).filter
              (fun y => decide ((x, y) ∈ ms.flatten.dedup))).length :=
        (range_filter_mem_length (ms.flatten.dedup) x colx.length
          (List.nodup_dedup _) (fun c hc hcx => hcollen ▸ hbound c hc hcx)).symm
      rw [h1]
      calc ((List.range colx.length).filter _).length
          ≤ (List.range colx.length).length := List.length_filter_le _ _
        _ = colx.length := List.length_range _
        _ = st2.height := hcollen
    rw [List.length_append, List.length_map, hlookup x hx, hsurv]
    omega
  refine ⟨?_, ?_⟩
  · rw [happly, List.length_map, List.length_range]
  · intro x hx
    have hget : (applyExplodeAndReplacePhase st2 ⟨ms, R⟩).puzzleState.get? x
        = some (((R.lookup x).getD []).map some
            ++ (((st2.puzzleState.get? x).getD []).enum.filter
              (fun p => decide ((x, p.1) ∉ ms.flatten.dedup))).map Prod.snd) := by
      rw [happly, List.get?_map, List.get?_range hx]
      simp only [Option.map_some']
      rw [if_pos (hbody x hx)]
    refine ⟨hget, ?_⟩
    rw [List.getD_eq_get?, hget]
    exact hbody x hx

/-! ## Claim C2: commit structure of a phase -/

/-- Claim C2: for every phase with a non-empty match list, each post-commit
column is the replacement gems for that column (in spawn order, top-most
first) followed by the surviving gems in their original relative order; the
number of replacements generated per column equals the number of distinct
cleared cells in that column (a cell shared by two matches counted once); and
every post-commit column has length exactly the grid height. -/
theorem phase_commit_columns (st : BackendPuzzle) (actions : List MoveAction)
    (rng : Nat → Nat × Nat)
    (hW : st.puzzleState.length = st.width)
    (hH : ∀ col ∈ st.puzzleState, col.length = st.height)
    (hm : (getNextExplodeAndReplacePhase st actions rng).1.matches ≠ []) :
    (getNextExplodeAndReplacePhase st actions rng).2.puzzleState.length = st.width
    ∧ ∀ x, x < st.width →
        ((((getNextExplodeAndReplacePhase st actions rng).1.replacements.lookup x).getD
            []).length
          = ((getNextExplodeAndReplacePhase st actions rng).1.matches.flatten.dedup.filter
              (fun c => c.1 == x)).length)
        ∧ (getNextExplodeAndReplacePhase st actions rng).2.puzzleState.get? x
            = some ((((getNextExplodeAndReplacePhase st actions rng).1.replacements.lookup
                  x).getD []).map some
              ++ ((((actions.foldl (fun g a => applyMoveToGrid st.width st.height g a)
                      st.puzzleState).get? x).getD []).enum.filter
                  (fun p => decide ((x, p.1)
                    ∉ (getNextExplodeAndReplacePhase st actions
                        rng).1.matches.flatten.dedup))).map Prod.snd)
        ∧ ((getNextExplodeAndReplacePhase st actions rng).2.puzzleState.getD x []).length
            = st.height := by
  set grid1 := actions.foldl (fun g a => applyMoveToGrid st.width st.height g a)
    st.puzzleState with hgrid1
  set ms := getMatches st.width st.height grid1 with hmsdef
  set counts := fun x => ms.flatten.dedup.countP (fun c => c.1 == x) with hcounts
  set gen := genReplacements rng counts (List.range st.width) 0
    { st with puzzleState := grid1 } with hgen
  have hm' : ms ≠ [] := hm
  have hms_pos : 0 < ms.length := List.length_pos.2 hm'
  have hpair : getNextExplodeAndReplacePhase st actions rng
      = (⟨ms, gen.1⟩, applyExplodeAndReplacePhase gen.2 ⟨ms, gen.1⟩) := by
    simp only [getNextExplodeAndReplacePhase]
    rw [if_pos hms_pos]
    rw [if_neg (show ¬(ExplodeAndReplacePhase.isNothingToDo ⟨ms, gen.1⟩ = true) from by
      rw [ExplodeAndReplacePhase.isNothingToDo]
      simpa [List.isEmpty_iff] using hm')]
  have hwf1 := foldl_moves_wf st.width st.height actions st.puzzleState hW hH
  have hstate := genReplacements_state rng counts (List.range st.width) 0
    { st with puzzleState := grid1 }
  have hgw : gen.2.width = st.width := hstate.1
  have hgh : gen.2.height = st.height := hstate.2.1
  have hgp : gen.2.puzzleState = grid1 := hstate.2.2
  have hW2 : gen.2.puzzleState.length = gen.2.width := by
    rw [hgp, hgw]
    exact hwf1.1
  have hH2 : ∀ col ∈ gen.2.puzzleState, col.length = gen.2.height := by
    rw [hgp, hgh]
    exact hwf1.2
  have hco2 : ∀ mt ∈ ms, ∀ c ∈ mt, c.1 < gen.2.width ∧ c.2 < gen.2.height := by
    rw [hgw, hgh]
    exact getMatches_coords st.width st.height grid1
  have hlk2 : ∀ x, x < gen.2.width → ((gen.1.lookup x).getD []).length
      = (ms.flatten.dedup.filter (fun c => c.1 == x)).length := by
    rw [hgw]
    intro x hx
    by_cases hc : 0 < counts x
    · obtain ⟨ts, hl, hlen⟩ := genReplacements_lookup rng counts (List.range st.width) 0
        { st with puzzleState := grid1 } x (List.nodup_range st.width)
        (List.mem_range.2 hx) hc
      rw [← hgen] at hl
      rw [hl]
      simp only [Option.getD_some]
      rw [hlen, hcounts]
      exact List.countP_eq_length_filter _ _
    · have hc0 : counts x = 0 := by omega
      have hl := genReplacements_lookup_none rng counts (List.range st.width) 0
        { st with puzzleState := grid1 } x hc0
      rw [← hgen] at hl
      rw [hl]
      simp only [Option.getD_none, List.length_nil]
      have hc0b : ms.flatten.dedup.countP (fun c => c.1 == x) = 0 := hc0
      rw [← List.countP_eq_length_filter]
      omega
  have hAE := applyExplode_columns gen.2 ms gen.1 hW2 hH2 hm' hco2 hlk2
  rw [hgp, hgw, hgh] at hAE
  rw [hpair]
  refine ⟨hAE.1, ?_⟩
  intro x hx
  have h2 := hAE.2 x hx
  exact ⟨hlk2 x (by rw [hgw]; exact hx), h2.1, h2.2⟩

/-- Witness for C2 at the concrete replacement scenario: one match, one
replacement per column, columns of length 4 after the commit. -/
theorem phase_commit_columns_witness :
    ((getNextExplodeAndReplacePhase spawnRunState [] (fun _ => (0, 0))).2.puzzleState.length
      = 3)
    ∧ (((getNextExplodeAndReplacePhase spawnRunState []
          (fun _ => (0, 0))).1.replacements.lookup 0).getD []).length
      = (((getNextExplodeAndReplacePhase spawnRunState []
          (fun _ => (0, 0))).1.matches.flatten.dedup.filter (fun c => c.1 == 0)).length)
    ∧ (((getNextExplodeAndReplacePhase spawnRunState []
          (fun _ => (0, 0))).2.puzzleState.getD 0 []).length = 4) := by
  have h := phase_commit_columns spawnRunState [] (fun _ => (0, 0))
    (by decide) (by decide) (by decide)
  have h0 := h.2 0 (by decide)
  exact ⟨h.1, h0.1, h0.2.2⟩

theorem count_eq_one_of_nodup_mem {α : Type} [BEq α] [LawfulBEq α]
    {l : List α} {a : α} (hn : l.Nodup) (ha : a ∈ l) : List.count a l = 1 := by
  induction l with
  | nil => simp at ha
  | cons b bs ih =>
      rcases List.nodup_cons.1 hn with ⟨hbn, hbs⟩
      rcases List.mem_cons.1 ha with rfl | hmem
      · rw [List.count_cons_self, List.count_eq_zero.2 hbn]
      · have hne : a ≠ b := by
          rintro rfl
          exact hbn hmem
        rw [List.count_cons_of_ne hne, ih hbs hmem]

/-! ## Claim C9: each maximal run is recorded as exactly one match -/

/-- Claim C9: match detection records every maximal run as exactly one match
and never re-scans a recorded run. For any grid, any maximal vertical run
(a run of at least three equal gems in a column that cannot be extended up or
down) has its coordinate list occur exactly once in the output of getMatches,
and symmetrically for maximal horizontal runs; conversely every pair recorded
by the line scanner is such a maximal run of length at least three, and the
scanner's successive records are ordered so that each new record starts at or
after the end of the previous one, so a recorded run is never re-scanned on
the same axis. Concretely, on the 3x5 grid whose column 0 is red, red, red,
blue, green and which has no other run of three, the output is exactly the
single match (0,0), (0,1), (0,2). -/
theorem getMatches_records_each_maximal_run_once :
    (∀ (grid : Grid) (width height x s ml : Nat) (t : String),
        x < width → 3 ≤ ml → s + ml ≤ height →
        (∀ i < ml, getGemType grid x (s + i) = some t) →
        (s = 0 ∨ getGemType grid x (s - 1) ≠ some t) →
        (s + ml = height ∨ getGemType grid x (s + ml) ≠ some t) →
        List.count ((List.range ml).map (fun i => (x, s + i)))
          (getMatches width height grid) = 1)
    ∧ (∀ (grid : Grid) (width height y s ml : Nat) (t : String),
        y < height → 3 ≤ ml → s + ml ≤ width →
        (∀ i < ml, getGemType grid (s + i) y = some t) →
        (s = 0 ∨ getGemType grid (s - 1) y ≠ some t) →
        (s + ml = width ∨ getGemType grid (s + ml) y ≠ some t) →
        List.count ((List.range ml).map (fun i => (s + i, y)))
          (getMatches width height grid) = 1)
    ∧ (∀ (cells : Nat → Option String) (limit : Nat),
        (∀ p ∈ scanLine cells limit 0 limit, ∃ t,
            3 ≤ p.2 ∧ p.1 + p.2 ≤ limit
            ∧ (∀ i < p.2, cells (p.1 + i) = some t)
            ∧ (p.1 = 0 ∨ cells (p.1 - 1) ≠ some t)
            ∧ (p.1 + p.2 = limit ∨ cells (p.1 + p.2) ≠ some t))
        ∧ List.Pairwise (fun p q : Nat × Nat => p.1 + p.2 ≤ q.1)
            (scanLine cells limit 0 limit))
    ∧ getMatches 3 5 exampleGrid9 = [[(0, 0), (0, 1), (0, 2)]] := by
  refine ⟨?_, ?_, ?_, by decide⟩
  · intro grid width height x s ml t hx h3 hb hcont hleft hright
    exact count_eq_one_of_nodup_mem (getMatches_nodup width height grid)
      (getMatches_complete_vert grid width height x s ml t hx h3 hb hcont hleft hright)
  · intro grid width height y s ml t hy h3 hb hcont hleft hright
    exact count_eq_one_of_nodup_mem (getMatches_nodup width height grid)
      (getMatches_complete_horiz grid width height y s ml t hy h3 hb hcont hleft hright)
  · intro cells limit
    refine ⟨scanLine_sound cells limit limit 0 ?_, scanLine_pairwise cells limit limit 0⟩
    intro t0 h0
    left
    rfl

/-- Witness for C9: on the concrete example grid, the maximal vertical run of
three reds at the top of column 0 is recorded exactly once, obtained by
applying the universal count statement at that run. -/
theorem getMatches_records_each_maximal_run_once_witness :
    List.count [((0 : Nat), (0 : Nat)), (0, 1), (0, 2)] (getMatches 3 5 exampleGrid9)
      = 1 := by
  have h := getMatches_records_each_maximal_run_once.1 exampleGrid9 3 5 0 0 3 "red"
    (by decide) (by decide) (by decide) (by decide) (by decide) (by decide)
  have heq : (List.range 3).map (fun i => ((0 : Nat), 0 + i))
      = [((0 : Nat), (0 : Nat)), (0, 1), (0, 2)] := by decide
  rw [heq] at h
  exact h

end MayPhaser
